import Mathlib

/-!
Verification of the graph-rewriting toolkit (mutable `Graph` container in
`pge/graph.py` and the transformation engine in
`graph_def_editor/transform.py`) against its natural-language specification.

The Python code is shallowly embedded: nodes, tensors and graphs become Lean
structures, mutating methods become state-passing functions, and Python
exceptions become an explicit error type threaded through `Except` (or
returned next to the post-mutation state when the original code mutates
before raising).
-/

namespace GDE

/-- Error kinds raised by the Python code: `ValueError`, `TypeError`,
`RuntimeError` and `KeyError`. -/
inductive GErr where
  | valueError
  | typeError
  | runtimeError
  | keyError
deriving DecidableEq, Repr

/-- Model of Python `str.lower()` (character-wise ASCII lowering, which is
what the node names in this code base use). -/
def strLower (s : String) : String :=
  ⟨s.data.map Char.toLower⟩

/-- Python `s.startswith(pre)`, character-wise. -/
def strStartsWith (s pre : String) : Bool :=
  pre.data.isPrefixOf s.data

/-- Python `s[n:]`, character-wise. -/
def strDrop (s : String) (n : Nat) : String :=
  ⟨s.data.drop n⟩

/-- Python `s.endswith(post)`, character-wise. -/
def strEndsWith (s post : String) : Bool :=
  post.data.isSuffixOf s.data

/-- Python `s[:-n]`, character-wise. -/
def strDropRight (s : String) (n : Nat) : String :=
  ⟨s.data.take (s.data.length - n)⟩

/-- Embeds `"{}_{}".format(name, i)` from `Graph.unique_name`
(src/pge/graph.py lines 231 and 234): the candidate name with integer
suffix `i`. -/
def candName (name : String) (i : Nat) : String :=
  name ++ "_" ++ Nat.repr i

/-- Embeds `Graph._name_in_use` (src/pge/graph.py line 194): case-insensitive
membership of `name` among the registered node names
(`name.lower() in [k.lower() for k in self._node_name_to_node.keys()]`). -/
def nameInUse (names : List String) (name : String) : Bool :=
  (names.map strLower).contains (strLower name)

/-- Embeds the `while self._name_in_use(new_name)` loop of
`Graph.unique_name` (src/pge/graph.py lines 230-235): starting at counter
`i`, return the first integer whose candidate name is unused.  The Python
loop is unbounded; here it carries fuel, and `uniqueNameList` passes enough
fuel for the loop to always reach the answer (proved in
`findSuffix_eq_of_smallest` together with `smallest_free_index_le`). -/
def findSuffix (names : List String) (name : String) : Nat → Nat → Nat
  | 0, i => i
  | fuel + 1, i =>
    if nameInUse names (candName name i) then findSuffix names name fuel (i + 1)
    else i

/-- Embeds `Graph.unique_name` (src/pge/graph.py lines 205-235) over the
list of registered node names: return `name` unchanged when it is free
(case-insensitively), else append `_1`, `_2`, ... until an unused name is
found. -/
def uniqueNameList (names : List String) (name : String) : String :=
  if ¬ nameInUse names name then name
  else candName name (findSuffix names name (names.length + 1) 1)

/-- Decimal interpretation of a digit-character list; used to prove that
`Nat.repr` (the Lean counterpart of Python `str(i)`) is injective. -/
def decodeDigits (cs : List Char) : Nat :=
  cs.foldl (fun a c => a * 10 + (c.toNat - 48)) 0

/-- Boolean membership via decidable equality (Python `in`). -/
def memB {α : Type} [DecidableEq α] (a : α) (l : List α) : Bool :=
  decide (a ∈ l)

/-- A tensor: one typed output slot of a node.  Identity is value-based on
(producing node name, output index), matching the spec's data model; node
names are unique within a graph, so this mirrors Python object identity. -/
structure Tensor where
  producer : String
  index : Nat
deriving DecidableEq, Repr

/-- A node of the graph (`pge.node.Node` / `graph_def_editor.node.Node`):
name, operation type, device, attribute map, the reserved `_class`
colocation attribute (a list of `loc:@<name>` strings, kept separately
because its value is a string list), ordered data inputs, control inputs
(by producing/controlling node name) and the number of output tensors
(output dtype/shape are irrelevant to the verified claims and elided). -/
structure Node where
  nid : Nat
  name : String
  opType : String
  device : String
  attrs : List (String × String)
  classAttr : List String
  inputs : List Tensor
  ctrlInputs : List String
  numOutputs : Nat
deriving DecidableEq, Repr

/-- The output tensors of a node, in slot order. -/
def Node.outputs (n : Node) : List Tensor :=
  (List.range n.numOutputs).map (fun i => { producer := n.name, index := i })

/-- Model of a `tf.NodeDef` wire record as used by
`Graph.add_node_from_node_def` and `copy_op_handler`. -/
structure NodeDef where
  name : String
  op : String
  device : String
  attrs : List (String × String)
  classAttr : List String
  inputStrs : List String
deriving DecidableEq, Repr

/-- The mutable `Graph` container (src/pge/graph.py class `Graph`):
insertion-ordered node registry (`_node_name_to_node` — Python dicts
preserve insertion order), version counter, frozen flag, node-identity
counter `_next_id`, the two lazily computed frame caches and the
collection map (collection members modelled by name). -/
structure Graph where
  version : Nat
  frozen : Bool
  nextId : Nat
  nodes : List Node
  nodeToFrameCache : Option (List (String × List (Option String)))
  frameToNodesCache : Option (List (Option String × List String))
  collections : List (String × List String)
deriving DecidableEq, Repr

/-- The registered node names, in insertion order
(`self._node_name_to_node.keys()`). -/
def Graph.nodeNames (g : Graph) : List String :=
  g.nodes.map Node.name

/-- Embeds `Graph.contains_node` (src/pge/graph.py line 126): exact
case-sensitive match. -/
def Graph.containsNode (g : Graph) (name : String) : Bool :=
  g.nodeNames.contains name

/-- Embeds `Graph.__getitem__` (src/pge/graph.py line 110): exact lookup,
`ValueError` when absent.  (The `TypeError` branch for non-string keys is
unrepresentable here because names are typed as strings.) -/
def Graph.getNode (g : Graph) (name : String) : Except GErr Node :=
  match g.nodes.find? (fun n => n.name = name) with
  | some n => .ok n
  | none => .error .valueError

/-- Embeds `Graph._name_in_use` over the graph's registered names. -/
def Graph.nameInUseG (g : Graph) (name : String) : Bool :=
  nameInUse g.nodeNames name

/-- Embeds `Graph.unique_name` over the graph's registered names. -/
def Graph.uniqueName (g : Graph) (name : String) : String :=
  uniqueNameList g.nodeNames name

/-- Embeds `Graph._get_next_id` (src/pge/graph.py line 314): return the
current id and advance the counter. -/
def Graph.getNextId (g : Graph) : Nat × Graph :=
  (g.nextId, { g with nextId := g.nextId + 1 })

/-- Embeds `Graph.increment_version_counter` (src/pge/graph.py lines
286-295): raise `RuntimeError` (leaving the graph as it was) when frozen,
else bump the version and invalidate both frame caches. -/
def Graph.incrementVersionCounter (g : Graph) : Graph × Option GErr :=
  if g.frozen then (g, some .runtimeError)
  else
    ({ g with
       version := g.version + 1,
       nodeToFrameCache := none,
       frameToNodesCache := none }, none)

/-- Lines 155-158 of `Graph.add_node` (src/pge/graph.py): allocate the next
id, register the node under `name`, then call
`increment_version_counter`.  The returned graph reflects all mutations
performed before a `RuntimeError` escapes, exactly as the Python object
would. -/
def Graph.addNodeRegister (g : Graph) (name opName : String) :
    Graph × Except GErr Node :=
  let p := g.getNextId
  let ret : Node := { nid := p.1, name := name, opType := opName, device := "",
                      attrs := [], classAttr := [], inputs := [],
                      ctrlInputs := [], numOutputs := 0 }
  let g2 := { p.2 with nodes := p.2.nodes ++ [ret] }
  match g2.incrementVersionCounter with
  | (g3, some e) => (g3, .error e)
  | (g3, none) => (g3, .ok ret)

/-- Embeds `Graph.add_node` (src/pge/graph.py lines 133-158): uniquify the
name (or fail with `ValueError` when `uniquifyName` is false and the name
is taken case-insensitively), then register and bump the version. -/
def Graph.addNode (g : Graph) (name opName : String)
    (uniquifyName : Bool := true) : Graph × Except GErr Node :=
  if uniquifyName then g.addNodeRegister (g.uniqueName name) opName
  else if g.nameInUseG name then (g, .error .valueError)
  else g.addNodeRegister name opName

/-- Modelled from the spec: `Node.set_inputs_from_strings` input-string
parsing (§4.2 / §6 — the node model itself is not under src/): a leading
`^` marks a control input; otherwise `name[:index]` is a data reference
with the index defaulting to 0. -/
def parseInputStr (s : String) : Sum String Tensor :=
  if strStartsWith s "^" then .inl (strDrop s 1)
  else
    match s.splitOn ":" with
    | [nm, idx] => .inr { producer := nm, index := (idx.toNat?).getD 0 }
    | _ => .inr { producer := s, index := 0 }

/-- Modelled from the spec: `Node.set_inputs_from_strings` (§4.2) — set the
data inputs (and, when requested, the control inputs) of a node from
wire-format input strings. -/
def setInputsFromStrings (n : Node) (strs : List String)
    (setControlInputs : Bool) : Node :=
  let dataIn := strs.filterMap (fun s =>
    match parseInputStr s with | .inr t => some t | .inl _ => none)
  let ctl := strs.filterMap (fun s =>
    match parseInputStr s with | .inl c => some c | .inr _ => none)
  { n with inputs := dataIn,
           ctrlInputs := if setControlInputs then ctl else n.ctrlInputs }

/-- Replace the registered node of the given name by a modified copy
(model of Python's in-place mutation of the node object held in
`_node_name_to_node`). -/
def Graph.updateNode (g : Graph) (name : String) (f : Node → Node) : Graph :=
  { g with nodes := g.nodes.map (fun n => if n.name = name then f n else n) }

/-- Embeds `Graph.add_node_from_node_def` (src/pge/graph.py lines 160-192,
the second, overriding definition): reject `set_control_inputs` without
`set_inputs`, call `add_node`, then populate inputs / device / attributes
on the registered node. -/
def Graph.addNodeFromNodeDef (g : Graph) (nd : NodeDef)
    (setInputs : Bool := false) (setControlInputs : Bool := false) :
    Graph × Except GErr Node :=
  if setControlInputs ∧ ¬ setInputs then (g, .error .valueError)
  else
    match g.addNode nd.name nd.op true with
    | (g1, .error e) => (g1, .error e)
    | (g1, .ok ret) =>
      let ret1 := if setInputs then setInputsFromStrings ret nd.inputStrs setControlInputs
                  else ret
      let ret2 := { ret1 with
                    device := nd.device,
                    attrs := nd.attrs,
                    classAttr := nd.classAttr }
      (g1.updateNode ret.name (fun _ => ret2), .ok ret2)

/-- Embeds `Graph.get_collection` (src/pge/graph.py line 297):
`self._collections[name]`, a `KeyError` when the name was never stored. -/
def Graph.getCollection (g : Graph) (name : String) :
    Except GErr (List String) :=
  match g.collections.find? (fun p => p.1 = name) with
  | some p => .ok p.2
  | none => .error .keyError

/-- Embeds `Graph.get_all_collection_keys` (src/pge/graph.py line 310). -/
def Graph.getAllCollectionKeys (g : Graph) : List String :=
  g.collections.map Prod.fst

/-- Embeds the `frozen` property setter (src/pge/graph.py line 282). -/
def Graph.setFrozen (g : Graph) (b : Bool) : Graph :=
  { g with frozen := b }

/-- Embeds `Tensor.consumers()`: the nodes whose data-input lists reference
the tensor, found by scanning the graph's node registry in order (spec
§4.3: consumers are derived, not stored). -/
def Graph.consumers (g : Graph) (t : Tensor) : List Node :=
  g.nodes.filter (fun n => memB t n.inputs)

/-- Embeds `g.nodes` with no data inputs — the starting queue of the frame
analysis (src/pge/graph.py line 413). -/
def Graph.rootNodes (g : Graph) : List Node :=
  g.nodes.filter (fun n => n.inputs.length = 0)

/-- `Node.get_attr` for string-valued attributes (the frame analysis only
reads the string attribute `frame_name`). -/
def getAttr (n : Node) (key : String) : Option String :=
  (n.attrs.find? (fun p => p.1 = key)).map Prod.snd

/-- State of the breadth-first traversal of
`Graph._generate_node_to_frame_name` (src/pge/graph.py lines 398-456):
the node queue, the visited set (by node name — names are unique in a
graph), the shared frame-name stack (`None`, i.e. `none`, is the root
sentinel the Python code seeds the stack with), the current
`frame_name_tuple`, and the two result tables. -/
structure FrameState where
  queue : List Node
  visitedNames : List String
  stack : List (Option String)
  tup : List (Option String)
  nodeToFrame : List (String × List (Option String))
  frameToNodes : List (Option String × List String)
deriving DecidableEq, Repr

/-- `new_frame_name_to_nodes.setdefault(frame_name, []).append(cur_node)`
(src/pge/graph.py line 443). -/
def addToFrameMap (m : List (Option String × List String))
    (k : Option String) (v : String) : List (Option String × List String) :=
  if m.any (fun p => p.1 = k) then
    m.map (fun p => if p.1 = k then (p.1, p.2 ++ [v]) else p)
  else m ++ [(k, [v])]

/-- One dequeue-and-process step plus recursion, embedding the
`while len(queue) > 0` loop of `Graph._generate_node_to_frame_name`
(src/pge/graph.py lines 424-449).  Fuel only bounds the iteration count;
`Graph.generateFrames` passes enough for the loop to drain the queue
(every node is enqueued at most once past the initial roots). -/
def frameBFS (g : Graph) : Nat → FrameState → Except GErr FrameState
  | 0, st => .ok st
  | fuel + 1, st =>
    match st.queue with
    | [] => .ok st
    | cur :: rest =>
      let stackRes : Except GErr (List (Option String) × List (Option String)) :=
        if cur.opType = "Enter" ∨ cur.opType = "RefEnter" then
          match getAttr cur "frame_name" with
          | none => .error .valueError
          | some fn =>
            let s := st.stack ++ [some fn]
            .ok (s, s)
        else if cur.opType = "Exit" ∨ cur.opType = "RefExit" then
          let s := st.stack.dropLast
          .ok (s, s)
        else .ok (st.stack, st.tup)
      match stackRes with
      | .error e => .error e
      | .ok (stack1, tup1) =>
        let n2f := st.nodeToFrame ++ [(cur.name, tup1)]
        let f2n := stack1.foldl (fun m fn => addToFrameMap m fn cur.name)
          st.frameToNodes
        let succs := cur.outputs.foldl (fun acc t => acc ++ g.consumers t) []
        let qv := succs.foldl
          (fun (qv : List Node × List String) m =>
            if qv.2.contains m.name then qv
            else (qv.1 ++ [m], qv.2 ++ [m.name]))
          (rest, st.visitedNames)
        frameBFS g fuel { queue := qv.1, visitedNames := qv.2, stack := stack1,
                          tup := tup1, nodeToFrame := n2f, frameToNodes := f2n }

/-- Embeds `Graph._generate_node_to_frame_name`: run the breadth-first
traversal from the zero-data-input nodes and return the two tables. -/
def Graph.generateFrames (g : Graph) :
    Except GErr (List (String × List (Option String)) ×
                 List (Option String × List String)) :=
  let q := g.rootNodes
  match frameBFS g (2 * g.nodes.length + 1)
      { queue := q, visitedNames := q.map Node.name, stack := [none],
        tup := [], nodeToFrame := [], frameToNodes := [] } with
  | .error e => .error e
  | .ok st => .ok (st.nodeToFrame, st.frameToNodes)

/-- Embeds `Graph.node_to_frame_names` (src/pge/graph.py lines 320-372):
fill the cache if needed, then an unguarded dictionary lookup
(`self._node_to_frame_names[n]`, a `KeyError` when the node was never
visited). -/
def Graph.nodeToFrameNames (g : Graph) (n : Node) :
    Graph × Except GErr (List (Option String)) :=
  match g.nodeToFrameCache with
  | some m =>
    (g, match m.find? (fun p => p.1 = n.name) with
        | some p => .ok p.2
        | none => .error .keyError)
  | none =>
    match g.generateFrames with
    | .error e => (g, .error e)
    | .ok tables =>
      let g1 := { g with nodeToFrameCache := some tables.1,
                         frameToNodesCache := some tables.2 }
      (g1, match tables.1.find? (fun p => p.1 = n.name) with
           | some p => .ok p.2
           | none => .error .keyError)

/-- Embeds `Graph.frame_name_to_nodes` (src/pge/graph.py lines 374-387):
fill the cache if needed, then `self._frame_name_to_nodes[frame_name]`
(a `KeyError` when no node carries the frame). -/
def Graph.frameNameToNodes (g : Graph) (frameName : String) :
    Graph × Except GErr (List String) :=
  match g.frameToNodesCache with
  | some m =>
    (g, match m.find? (fun p => p.1 = some frameName) with
        | some p => .ok p.2
        | none => .error .keyError)
  | none =>
    match g.generateFrames with
    | .error e => (g, .error e)
    | .ok tables =>
      let g1 := { g with nodeToFrameCache := some tables.1,
                         frameToNodesCache := some tables.2 }
      (g1, match tables.2.find? (fun p => p.1 = some frameName) with
           | some p => .ok p.2
           | none => .error .keyError)

/-- Embeds `Graph.get_frame_names` (src/pge/graph.py lines 389-396). -/
def Graph.getFrameNames (g : Graph) :
    Graph × Except GErr (List (Option String)) :=
  match g.frameToNodesCache with
  | some m => (g, .ok (m.map Prod.fst))
  | none =>
    match g.generateFrames with
    | .error e => (g, .error e)
    | .ok tables =>
      ({ g with nodeToFrameCache := some tables.1,
                frameToNodesCache := some tables.2 },
       .ok (tables.2.map Prod.fst))

/-- A node is data-reachable when the breadth-first frame analysis can
reach it: it has no data inputs (a "root node"), or it consumes an output
tensor of a data-reachable node. -/
inductive DataReachable (g : Graph) : Node → Prop where
  | root (n : Node) : n ∈ g.nodes → n.inputs.length = 0 → DataReachable g n
  | step (m n : Node) (t : Tensor) : DataReachable g m → t ∈ m.outputs →
      n ∈ g.consumers t → DataReachable g n

/-- The TensorFlow name of a tensor, `<node>:<index>`, used for name-based
lookups in `TransformerInfo`. -/
def tensorName (t : Tensor) : String :=
  t.producer ++ ":" ++ Nat.repr t.index

/-- Modelled from the spec: `util.scope_finalize` (§4.1, the utility layer
is not under src/) — canonical scope form ending in a single separator
unless empty. -/
def scopeFinalize (s : String) : String :=
  if s = "" then "" else if strEndsWith s "/" then s else s ++ "/"

/-- Embeds `_TmpInfo.new_name` (src/graph_def_editor/transform.py lines
372-389): fail with `ValueError` when `name` is not nested under the
source scope, else replace the source-scope path component by the
destination scope. -/
def newNameF (scope scopeDst : String) (name : String) : Except GErr String :=
  if ¬ strStartsWith name scope then .error .valueError
  else .ok (scopeDst ++ strDrop name scope.length)

/-- Embeds the transformation working state `_TmpInfo`
(src/graph_def_editor/transform.py lines 335-389): the interior node set
and boundary-input set of the source view, source/destination graph and
scope, the in-progress original-to-copy maps, the queued cyclic-tensor
triples and the collections captured from the source graph.  `sameGraph`
models the Python identity test `info.graph is info.graph_`. -/
structure TmpInfo where
  sgvOps : List Node
  sgvInputs : List Tensor
  srcGraph : Graph
  scope : String
  dstGraph : Graph
  scopeDst : String
  sameGraph : Bool
  transformedOps : List (Node × Node)
  transformedTs : List (Tensor × Tensor)
  tmpCyclicTs : List (Tensor × Tensor × Node)
  collections : List (String × List String)
deriving DecidableEq

/-- `info.new_name(name)` on the working state. -/
def TmpInfo.newName (info : TmpInfo) (name : String) : Except GErr String :=
  newNameF info.scope info.scopeDst name

/-- Dictionary lookup in the tensor map (`info.transformed_ts`). -/
def lookupTs (m : List (Tensor × Tensor)) (t : Tensor) : Option Tensor :=
  (m.find? (fun p => p.1 = t)).map Prod.snd

/-- Dictionary lookup in the node map (`info.transformed_ops`). -/
def lookupOps (m : List (Node × Node)) (n : Node) : Option Node :=
  (m.find? (fun p => p.1 = n)).map Prod.snd

/-- Modelled from the spec: `util.make_placeholder_from_tensor` (§4.1) —
create a fresh input-placeholder node in the destination graph (one
output slot standing in for the given tensor) and return that output. -/
def makePlaceholderFromTensor (g : Graph) (t : Tensor) (scope : String)
    (pre : String) : Graph × Except GErr Tensor :=
  match g.addNode (scope ++ pre ++ "/" ++ t.producer) "Placeholder" true with
  | (g1, .ok n) =>
    (g1.updateNode n.name (fun m => { m with numOutputs := 1 }),
     .ok { producer := n.name, index := 0 })
  | (g1, .error e) => (g1, .error e)

/-- Embeds `replace_t_with_placeholder_handler`
(src/graph_def_editor/transform.py lines 62-74). -/
def replaceTWithPlaceholderHandler (info : TmpInfo) (t : Tensor) :
    Except GErr (TmpInfo × Tensor) :=
  match makePlaceholderFromTensor info.dstGraph t info.scopeDst "geph" with
  | (g, .ok t1) => .ok ({ info with dstGraph := g }, t1)
  | (_, .error e) => .error e

/-- Embeds `keep_t_if_possible_handler`
(src/graph_def_editor/transform.py lines 77-93): keep the tensor when the
source and destination graphs are the same object, else a placeholder. -/
def keepTIfPossibleHandler (info : TmpInfo) (t : Tensor) :
    Except GErr (TmpInfo × Tensor) :=
  if info.sameGraph then .ok (info, t)
  else replaceTWithPlaceholderHandler info t

/-- The external-input handler installed by
`copy_with_input_replacements` (src/graph_def_editor/transform.py lines
675-679): consult the replacement map first, else fall back to
`keep_t_if_possible_handler`. -/
def replaceTWithReplacementHandler (replacementTs : List (Tensor × Tensor))
    (info : TmpInfo) (t : Tensor) : Except GErr (TmpInfo × Tensor) :=
  match lookupTs replacementTs t with
  | some t1 => .ok (info, t1)
  | none => keepTIfPossibleHandler info t

/-- Modelled from the spec: `util.get_predefined_collection_names` (§4.1)
— the reserved collection names kept verbatim; none of the verified
claims exercise them, so the reserved set is empty here. -/
def getPredefinedCollectionNames : List String := []

/-- `setdefault`-style append into the destination graph's collection map
(the `add_to_collection` effect of the collection handler). -/
def Graph.addToCollection (g : Graph) (name member : String) : Graph :=
  if g.collections.any (fun p => p.1 = name) then
    let cs := g.collections.map
      (fun p => if p.1 = name then (p.1, p.2 ++ [member]) else p)
    { g with collections := cs }
  else { g with collections := g.collections ++ [(name, [member])] }

/-- Embeds `assign_renamed_collections_handler`
(src/graph_def_editor/transform.py lines 96-124), with collection members
modelled by element name: for every captured source collection containing
the original element, add the copy to the (possibly scope-renamed)
destination collection. -/
def assignRenamedCollectionsHandler (info : TmpInfo)
    (elemName elemNameNew : String) : Except GErr TmpInfo :=
  info.collections.foldlM
    (fun acc (p : String × List String) =>
      if ¬ memB elemName p.2 then .ok acc
      else
        match (if memB p.1 getPredefinedCollectionNames then .ok p.1
               else TmpInfo.newName acc p.1) with
        | .error e => .error e
        | .ok tname =>
          .ok { acc with dstGraph := acc.dstGraph.addToCollection tname elemNameNew })
    info

/-- The pluggable handlers of a `Transformer`
(src/graph_def_editor/transform.py lines 400-428) that the verified
claims exercise: the node-copy handler and the external/hidden input
handlers.  The control-input handler is the fixed default
`transform_op_if_inside_handler`. -/
structure Handlers where
  opHandler : TmpInfo → Node → List Tensor →
    Except GErr (TmpInfo × Node × List Tensor)
  externalInputHandler : TmpInfo → Tensor → Except GErr (TmpInfo × Tensor)
  hiddenInputHandler : TmpInfo → Tensor → Except GErr (TmpInfo × Tensor)

/-- Embeds `copy_op_handler` (src/graph_def_editor/transform.py lines
150-209): clone the node record, scope-translate its name and uniquify it
in the destination graph, rewrite each colocation entry `loc:@<old>` to
`loc:@` + `new_name(<old>)` (dropping the 5-character tag, exactly as the
Python slice `old_cg_str[len(_COLOCATION_PREFIX):]` does), register the
node via `add_node_from_node_def`, then set the resolved inputs and the
outputs (output count copied; dtype/shape inference is elided). -/
def copyOpHandler (info : TmpInfo) (op : Node) (newInputs : List Tensor) :
    Except GErr (TmpInfo × Node × List Tensor) :=
  match info.newName op.name with
  | .error e => .error e
  | .ok nm0 =>
    let nm := info.dstGraph.uniqueName nm0
    match op.classAttr.mapM
        (fun s => (info.newName (strDrop s 5)).map (fun x => "loc:@" ++ x)) with
    | .error e => .error e
    | .ok cls1 =>
      let nd : NodeDef := { name := nm, op := op.opType, device := op.device,
                            attrs := op.attrs, classAttr := cls1,
                            inputStrs := [] }
      match info.dstGraph.addNodeFromNodeDef nd false false with
      | (_, .error e) => .error e
      | (g1, .ok op1) =>
        let op2 := { op1 with inputs := newInputs, numOutputs := op.numOutputs }
        let g2 := g1.updateNode op1.name (fun _ => op2)
        .ok ({ info with dstGraph := g2 }, op2, op2.outputs)

/-- Embeds `Transformer._transformed_t`
(src/graph_def_editor/transform.py lines 566-597): resolve a source
tensor to its destination counterpart — already-copied tensor, declared
boundary input, cyclic interior tensor (resolved through a Merge's first
input, an Enter's input, or a temporary `geph_tmp` placeholder, recording
the triple for later reconnection), or hidden input.  Fuel bounds the
recursion through Merge/Enter chains; the pipeline passes more fuel than
the longest possible chain. -/
def transformedT (h : Handlers) :
    Nat → TmpInfo → Tensor → Node → Except GErr (TmpInfo × Tensor)
  | 0, _, _, _ => .error .runtimeError
  | fuel + 1, info, t, consumerOp =>
    match lookupTs info.transformedTs t with
    | some t1 => .ok (info, t1)
    | none =>
      if memB t info.sgvInputs then h.externalInputHandler info t
      else
        match info.srcGraph.nodes.find? (fun n => n.name = t.producer) with
        | some p =>
          if memB p info.sgvOps then
            (((if consumerOp.opType = "Merge" then
                match consumerOp.inputs with
                | [] => .error .valueError
                | fi :: _ => transformedT h fuel info fi consumerOp
              else if p.opType = "Enter" then
                match p.inputs with
                | [] => .error .valueError
                | ei :: _ => transformedT h fuel info ei consumerOp
              else
                match makePlaceholderFromTensor info.dstGraph t
                    info.scopeDst "geph_tmp" with
                | (g, .ok t1) => .ok ({ info with dstGraph := g }, t1)
                | (_, .error e) => .error e) :
                Except GErr (TmpInfo × Tensor)).bind
              (fun pr =>
                .ok ({ pr.1 with
                       tmpCyclicTs := pr.1.tmpCyclicTs ++ [(t, pr.2, consumerOp)] },
                     pr.2)))
          else h.hiddenInputHandler info t
        | none => h.hiddenInputHandler info t

/-- Insertion into the id-sorted worklist (stable; graph-assigned ids are
distinct). -/
def insertById (n : Node) : List Node → List Node
  | [] => [n]
  | m :: ms => if n.nid ≤ m.nid then n :: m :: ms else m :: insertById n ms

/-- Embeds `sorted(info.sgv.ops, key=lambda n: n.id_in_graph)`
(src/graph_def_editor/transform.py line 483). -/
def sortById : List Node → List Node
  | [] => []
  | n :: ns => insertById n (sortById ns)

/-- The body of the `for op in sorted_ops` loop of `Transformer._copy_ops`
(src/graph_def_editor/transform.py lines 484-497): resolve the inputs,
invoke the node-copy handler, fail with `ValueError` when the handler
returns the node being copied itself (`if op is op_`, embedded as
structural identity), then record the node and output-tensor mappings and
run the collection handler. -/
def copyOneOp (h : Handlers) (fuel : Nat) (info : TmpInfo) (op : Node) :
    Except GErr TmpInfo := do
  let resolved ← op.inputs.foldlM
    (fun (acc : TmpInfo × List Tensor) t => do
      let r ← transformedT h fuel acc.1 t op
      pure (r.1, acc.2 ++ [r.2]))
    (info, [])
  let r2 ← h.opHandler resolved.1 op resolved.2
  if r2.2.1 = op then .error .valueError
  else do
    let info3 := { r2.1 with
                   transformedOps := r2.1.transformedOps ++ [(op, r2.2.1)] }
    let info4 ← assignRenamedCollectionsHandler info3 op.name r2.2.1.name
    (op.outputs.zip r2.2.2).foldlM
      (fun acc (pr : Tensor × Tensor) => do
        let acc1 := { acc with transformedTs := acc.transformedTs ++ [pr] }
        assignRenamedCollectionsHandler acc1 (tensorName pr.1) (tensorName pr.2))
      info4

/-- Embeds `Transformer._copy_ops` (src/graph_def_editor/transform.py
lines 481-497): process the interior nodes in ascending id order. -/
def copyOps (h : Handlers) (fuel : Nat) (info : TmpInfo) :
    Except GErr TmpInfo :=
  (sortById info.sgvOps).foldlM (fun acc op => copyOneOp h fuel acc op) info

/-- Embeds `Transformer._finalize_cycles`
(src/graph_def_editor/transform.py lines 499-511): for every queued
(original tensor, temporary tensor, consumer) triple, look up the real
transformed tensor and consumer copy (`ValueError` when either is
missing — "should be transformed by now"), locate the temporary among the
copied consumer's current inputs and replace that single input. -/
def finalizeCycles (info : TmpInfo) : Except GErr TmpInfo :=
  info.tmpCyclicTs.foldlM
    (fun acc trip =>
      match lookupTs acc.transformedTs trip.1 with
      | none => .error .valueError
      | some t1 =>
        match lookupOps acc.transformedOps trip.2.2 with
        | none => .error .valueError
        | some cOp1 =>
          match acc.dstGraph.nodes.find? (fun n => n.name = cOp1.name) with
          | none => .error .valueError
          | some cur =>
            match cur.inputs.findIdx? (fun u => u = trip.2.1) with
            | none => .error .valueError
            | some idx =>
              let g1 := acc.dstGraph.updateNode cur.name
                (fun m => { m with inputs := m.inputs.set idx t1 })
              .ok { acc with dstGraph := g1 })
    info

/-- Embeds `transform_op_if_inside_handler`
(src/graph_def_editor/transform.py lines 127-147): map an interior node
through `transformed_ops` (an unguarded lookup in the Python code,
surfaced as `KeyError` here), keep an exterior node when source and
destination graphs are the same, else drop it. -/
def transformOpIfInsideHandler (info : TmpInfo) (op : Node)
    (keepIfPossible : Bool := true) : Except GErr (Option Node) :=
  if memB op info.sgvOps then
    match lookupOps info.transformedOps op with
    | some op1 => .ok (some op1)
    | none => .error .keyError
  else if keepIfPossible ∧ info.sameGraph then .ok (some op)
  else .ok none

/-- Embeds `Transformer._connect_control_inputs`
(src/graph_def_editor/transform.py lines 513-523): recompute each copied
node's control inputs through the control-input handler, dropping
unresolved ones. -/
def connectControlInputs (info : TmpInfo) : Except GErr TmpInfo :=
  info.sgvOps.foldlM
    (fun acc op =>
      match lookupOps acc.transformedOps op with
      | none => .error .keyError
      | some op1 => do
        let cis ← op.ctrlInputs.foldlM
          (fun (l : List Node) ciName =>
            match acc.srcGraph.nodes.find? (fun n => n.name = ciName) with
            | none => .ok l
            | some ci => do
              match ← transformOpIfInsideHandler acc ci true with
              | some ci1 => pure (l ++ [ci1])
              | none => pure l)
          []
        let g1 := acc.dstGraph.updateNode op1.name
          (fun m => { m with ctrlInputs := cis.map Node.name })
        pure { acc with dstGraph := g1 })
    info

/-- Modelled from the spec: the boundary-input computation of
`subgraph.make_view` (§4.6, the selection layer is not under src/):
the tensors consumed by an interior node but produced outside the
interior set, in first-encounter order over the interior nodes' input
lists, without duplicates. -/
def makeViewInputs (ops : List Node) : List Tensor :=
  let interiorNames := ops.map Node.name
  (ops.foldl (fun acc n => acc ++ n.inputs) []).foldl
    (fun acc t =>
      if memB t acc then acc
      else if interiorNames.contains t.producer then acc
      else acc ++ [t])
    []

/-- Embeds `Transformer.__call__` (src/graph_def_editor/transform.py lines
430-479) on an already-normalized interior node list: finalize the
scopes, uniquify a fresh destination scope unless reuse was requested,
build the working state, then copy ops, finalize cycles and connect
control inputs.  The transformed `SubGraphView` that `__call__` also
derives (`_transform_sgv`) is pure bookkeeping over the returned maps and
is discarded by `graph_replace`, which is what the claims exercise, so
the call returns the destination graph and the two mappings. -/
def transformerCall (h : Handlers) (srcGraph : Graph) (sgvOps : List Node)
    (dstGraph : Graph) (dstScope srcScope : String) (reuseDstScope : Bool)
    (sameGraph : Bool) :
    Except GErr (Graph × List (Node × Node) × List (Tensor × Tensor)) := do
  let srcScope1 := scopeFinalize srcScope
  let dstScope0 := scopeFinalize dstScope
  let dstScope1 :=
    if dstScope0 ≠ "" ∧ ¬ reuseDstScope then
      scopeFinalize (dstGraph.uniqueName (strDropRight dstScope0 1))
    else dstScope0
  let info : TmpInfo :=
    { sgvOps := sgvOps, sgvInputs := makeViewInputs sgvOps,
      srcGraph := srcGraph, scope := srcScope1, dstGraph := dstGraph,
      scopeDst := dstScope1, sameGraph := sameGraph, transformedOps := [],
      transformedTs := [], tmpCyclicTs := [],
      collections := srcGraph.collections }
  let info1 ← copyOps h (srcGraph.nodes.length + 1) info
  let info2 ← finalizeCycles info1
  let info3 ← connectControlInputs info2
  pure (info3.dstGraph, info3.transformedOps, info3.transformedTs)

/-- The default handlers of a fresh `Transformer`
(src/graph_def_editor/transform.py lines 422-428), with a configurable
external-input handler. -/
def defaultHandlersWith
    (ext : TmpInfo → Tensor → Except GErr (TmpInfo × Tensor)) : Handlers :=
  { opHandler := copyOpHandler, externalInputHandler := ext,
    hiddenInputHandler := keepTIfPossibleHandler }

/-- Embeds `copy_with_input_replacements`
(src/graph_def_editor/transform.py lines 635-682) with the destination
graph defaulted to the source graph (the only use in `graph_replace`
passes `None`): a fresh `Transformer` whose external-input handler
consults the replacement map first. -/
def copyWithInputReplacements (g : Graph) (ops : List Node)
    (replacementTs : List (Tensor × Tensor)) (dstScope srcScope : String)
    (reuseDstScope : Bool) :
    Except GErr (Graph × List (Node × Node) × List (Tensor × Tensor)) :=
  transformerCall (defaultHandlersWith (replaceTWithReplacementHandler replacementTs))
    g ops g dstScope srcScope reuseDstScope true

/-- An arbitrarily nested tree of tensors — the shape of the `target_ts`
argument of `graph_replace` (mappings collapse to sequences, as
`_flatten_tree` treats dictionary values). -/
inductive TTree where
  | leaf (t : Tensor)
  | branch (ts : List TTree)

mutual

/-- Embeds `_flatten_tree` (src/graph_def_editor/transform.py lines
723-743): collect the leaves in order. -/
def flattenTree : TTree → List Tensor
  | .leaf t => [t]
  | .branch ts => flattenForest ts

/-- Leaf collection over a list of child trees. -/
def flattenForest : List TTree → List Tensor
  | [] => []
  | t :: ts => flattenTree t ++ flattenForest ts

end

mutual

/-- Modelled from the spec: `util.transform_tree` (§4.1) — apply a
function to every leaf, preserving the shape of the tree. -/
def transformTree (f : Tensor → Tensor) : TTree → TTree
  | .leaf t => .leaf (f t)
  | .branch ts => .branch (transformForest f ts)

/-- `transform_tree` over a list of child trees. -/
def transformForest (f : Tensor → Tensor) : List TTree → List TTree
  | [] => []
  | t :: ts => transformTree f t :: transformForest f ts

end

mutual

/-- The shape of a tensor tree (leaves erased). -/
def treeShape : TTree → TTree
  | .leaf _ => .leaf { producer := "", index := 0 }
  | .branch ts => .branch (shapeForest ts)

/-- Shapes of a list of child trees. -/
def shapeForest : List TTree → List TTree
  | [] => []
  | t :: ts => treeShape t :: shapeForest ts

end

/-- One expansion step of forward data-flow reachability: the names of all
consumers of outputs of the current set. -/
def forwardReachAux (g : Graph) : Nat → List String → List String
  | 0, acc => acc
  | fuel + 1, acc =>
    let nxt := (g.nodes.filter (fun n => acc.contains n.name)).foldl
      (fun l n => l ++ (n.outputs.foldl
        (fun l2 t => l2 ++ (g.consumers t).map Node.name) []))
      []
    let fresh := (nxt.filter (fun m => ¬ acc.contains m)).eraseDups
    if fresh.isEmpty then acc else forwardReachAux g fuel (acc ++ fresh)

/-- One expansion step of backward reachability along data and control
edges: producers of data inputs plus control-input nodes. -/
def backwardReachAux (g : Graph) : Nat → List String → List String
  | 0, acc => acc
  | fuel + 1, acc =>
    let nxt := (g.nodes.filter (fun n => acc.contains n.name)).foldl
      (fun l n => l ++ n.inputs.map Tensor.producer ++ n.ctrlInputs) []
    let fresh := (nxt.filter (fun m => ¬ acc.contains m)).eraseDups
    if fresh.isEmpty then acc else backwardReachAux g fuel (acc ++ fresh)

/-- Modelled from the spec: `select.get_walks_intersection_ops` (§4.6, the
selection layer is not under src/) — the nodes reachable by following
data edges forward from the replacement-key tensors and data/control
edges backward from the target tensors, intersected. -/
def getWalksIntersectionOps (g : Graph) (forwardSeedTs backwardSeedTs : List Tensor) :
    List Node :=
  let fwd := forwardReachAux g g.nodes.length
    ((forwardSeedTs.foldl (fun l t => l ++ (g.consumers t).map Node.name) []).eraseDups)
  let bwd := backwardReachAux g g.nodes.length
    ((backwardSeedTs.map Tensor.producer).eraseDups)
  g.nodes.filter (fun n => fwd.contains n.name ∧ bwd.contains n.name)

/-- Modelled from the spec: the `colocation_groups` property of the graph
(glossary: "a set of nodes declared to require identical device
placement, encoded via the `_class` / `loc:@` convention") — for every
occurring group tag, the declaring nodes plus the named target node. -/
def colocationGroups (g : Graph) : List (String × List String) :=
  ((g.nodes.foldl (fun l n => l ++ n.classAttr) []).eraseDups).map
    (fun e => (e, ((g.nodes.filter (fun n => n.classAttr.contains e)).map Node.name)
      ++ (if g.nodeNames.contains (strDrop e 5)
             ∧ ¬ (g.nodes.filter (fun n => n.classAttr.contains e)).any
                 (fun n => n.name = strDrop e 5)
          then [strDrop e 5] else [])))

/-- The `while num_before != len(all_ops)` colocation fixed point of
`_add_control_flow_ops` (src/graph_def_editor/transform.py lines
710-717): absorb every colocation group that intersects the current set,
until stable.  Fuel bounds the iterations; each non-final round strictly
grows the set, so node-count fuel suffices. -/
def fixColoc (groups : List (List String)) : Nat → List String → List String
  | 0, acc => acc
  | fuel + 1, acc =>
    let acc1 := groups.foldl
      (fun a grp => if grp.any (fun x => a.contains x) then
          a ++ grp.filter (fun x => ¬ a.contains x)
        else a)
      acc
    if acc1.length = acc.length then acc else fixColoc groups fuel acc1

/-- Embeds `_add_control_flow_ops` (src/graph_def_editor/transform.py
lines 685-720): union the frame-name tuples of the given ops (an
unguarded `node_to_frame_names` lookup — `KeyError` when an op was never
visited by the frame analysis), pull in every node of every touched
frame, close under intersecting colocation groups, then append the new
nodes (the Python code iterates a set difference whose order is
unspecified; the model appends in graph order, and `_copy_ops` re-sorts
by id anyway). -/
def addControlFlowOps (g : Graph) (ops : List Node) :
    Except GErr (List Node) :=
  match g.generateFrames with
  | .error e => .error e
  | .ok tables => do
    let frameNames ← ops.foldlM
      (fun (acc : List (Option String)) op =>
        match tables.1.find? (fun p => p.1 = op.name) with
        | some p => pure (acc ++ p.2.filter (fun x => ¬ acc.contains x))
        | none => .error .keyError)
      []
    let newOps ← frameNames.foldlM
      (fun (acc : List String) fn =>
        match tables.2.find? (fun p => p.1 = fn) with
        | some p => pure (acc ++ p.2.filter (fun x => ¬ acc.contains x))
        | none => .error .keyError)
      []
    let start := newOps ++ (ops.map Node.name).filter (fun x => ¬ newOps.contains x)
    let allOps := fixColoc ((colocationGroups g).map Prod.snd)
      (g.nodes.length + 1) start
    pure (ops ++ g.nodes.filter (fun n =>
      allOps.contains n.name ∧ ¬ ops.any (fun op => op.name = n.name)))

/-- Embeds `graph_replace` (src/graph_def_editor/transform.py lines
783-829) up to and including the copy: flatten the targets, check they
all live in `g` (`util.get_unique_graph`, modelled from spec §4.1),
compute the walk intersection, fail with `ValueError` ("Targets and
replacements are not connected!") when it is empty, complete the op set
for control flow and colocation, and copy with input replacements. -/
def graphReplaceInfo (g : Graph) (targetTs : TTree)
    (replacementTs : List (Tensor × Tensor)) (dstScope srcScope : String)
    (reuseDstScope : Bool) :
    Except GErr (Graph × List (Node × Node) × List (Tensor × Tensor)) :=
  let flat := flattenTree targetTs
  if flat.isEmpty then .error .valueError
  else if ¬ flat.all (fun t => g.nodeNames.contains t.producer) then
    .error .valueError
  else
    let ops := getWalksIntersectionOps g (replacementTs.map Prod.fst) flat
    if ops.isEmpty then .error .valueError
    else
      match addControlFlowOps g ops with
      | .error e => .error e
      | .ok ops1 =>
        copyWithInputReplacements g ops1 replacementTs dstScope srcScope
          reuseDstScope

/-- Embeds `graph_replace` end to end: on success, map the target tree
through the resulting tensor mapping with `missing_fn` returning the
original tensor (src/graph_def_editor/transform.py lines 825-829).
The pre-copy failure paths leave the graph untouched; this model returns
the input graph next to the error (late failures, raised after copying
began, can leave the Python graph partially rewired — no verified claim
depends on that state). -/
def graphReplace (g : Graph) (targetTs : TTree)
    (replacementTs : List (Tensor × Tensor)) (dstScope srcScope : String)
    (reuseDstScope : Bool) : Graph × Except GErr TTree :=
  match graphReplaceInfo g targetTs replacementTs dstScope srcScope
      reuseDstScope with
  | .error e => (g, .error e)
  | .ok res =>
    (res.1, .ok (transformTree (fun t => (lookupTs res.2.2 t).getD t) targetTs))

/-- An element of a `TransformerInfo` mapping: a node, a tensor, or a
plain string name (`transformed`/`original` accept all three). -/
inductive Elem where
  | node (n : Node)
  | tensor (t : Tensor)
  | str (s : String)
deriving DecidableEq, Repr

/-- The `.name` read by the linear name scans of `TransformerInfo`. -/
def elemName : Elem → String
  | .node n => n.name
  | .tensor t => tensorName t
  | .str s => s

/-- The result of a transform call as recorded by `TransformerInfo`
(src/graph_def_editor/transform.py lines 212-227): the node map and the
tensor map. -/
structure TransformerInfo where
  transformedOps : List (Node × Node)
  transformedTs : List (Tensor × Tensor)

/-- One of the two containers held by a `TransformerInfo`. -/
inductive ElemMap where
  | opsMap (m : List (Node × Node))
  | tsMap (m : List (Tensor × Tensor))

/-- The container's pairs, viewed as elements. -/
def mapPairs : ElemMap → List (Elem × Elem)
  | .opsMap m => m.map (fun p => (.node p.1, .node p.2))
  | .tsMap m => m.map (fun p => (.tensor p.1, .tensor p.2))

/-- Embeds `TransformerInfo._get_transformed_map`
(src/graph_def_editor/transform.py lines 229-238): dispatch on the
element's type; anything that is neither a node nor a tensor — including
a plain string — raises `TypeError`. -/
def getTransformedMap (info : TransformerInfo) : Elem → Except GErr ElemMap
  | .node _ => .ok (.opsMap info.transformedOps)
  | .tensor _ => .ok (.tsMap info.transformedTs)
  | .str _ => .error .typeError

/-- Embeds `TransformerInfo._transformed_elem`
(src/graph_def_editor/transform.py lines 240-259): fetch the container
via `_get_transformed_map` first (which is where a string argument dies
with `TypeError`), then either scan by name (for a string) or look up by
identity, falling back to `missing_fn`. -/
def transformedElem (info : TransformerInfo) (originalTop : Elem)
    (missingFn : Option (Elem → Elem)) : Except GErr (Option Elem) :=
  match getTransformedMap info originalTop with
  | .error e => .error e
  | .ok tm =>
    match originalTop with
    | .str s =>
      match (mapPairs tm).find? (fun p => elemName p.1 = s) with
      | some p => .ok (some p.2)
      | none => .ok ((missingFn.map (fun f => f originalTop)))
    | _ =>
      match (mapPairs tm).find? (fun p => p.1 = originalTop) with
      | some p => .ok (some p.2)
      | none => .ok ((missingFn.map (fun f => f originalTop)))

/-- Embeds `TransformerInfo._original_elem`
(src/graph_def_editor/transform.py lines 261-277): fetch the container
via `_get_transformed_map` first (same `TypeError` on strings), then scan
the transformed side by name or identity. -/
def originalElem (info : TransformerInfo) (transformedTop : Elem)
    (missingFn : Option (Elem → Elem)) : Except GErr (Option Elem) :=
  match getTransformedMap info transformedTop with
  | .error e => .error e
  | .ok tm =>
    let checkName : Bool := match transformedTop with | .str _ => true | _ => false
    match (mapPairs tm).find? (fun p =>
        (checkName && decide (elemName p.2 = elemName transformedTop)) ||
        (!checkName && decide (p.2 = transformedTop))) with
    | some p => .ok (some p.1)
    | none => .ok ((missingFn.map (fun f => f transformedTop)))

/-! Concrete graphs used to evaluate the embedded operations on
representative inputs. -/

/-- Shorthand node constructor for the example graphs. -/
def mkNode (nid : Nat) (name opType : String) (inputs : List Tensor)
    (numOutputs : Nat) (attrs : List (String × String) := [])
    (classAttr : List String := []) (ctrlInputs : List String := []) : Node :=
  { nid := nid, name := name, opType := opType, device := "", attrs := attrs,
    classAttr := classAttr, inputs := inputs, ctrlInputs := ctrlInputs,
    numOutputs := numOutputs }

/-- Shorthand tensor constructor. -/
def tsr (p : String) (i : Nat) : Tensor :=
  { producer := p, index := i }

/-- Shorthand graph constructor (fresh caches, no collections). -/
def mkGraph (version : Nat) (frozen : Bool) (nextId : Nat)
    (nodes : List Node) : Graph :=
  { version := version, frozen := frozen, nextId := nextId, nodes := nodes,
    nodeToFrameCache := none, frameToNodesCache := none, collections := [] }

/-- A frozen one-node graph. -/
def frozenG : Graph :=
  mkGraph 7 true 2 [mkNode 1 "a" "Const" [] 1]

/-- The nodes of a graph with exactly one while loop:
`Const → Enter(frame_name="loop1") → Merge → Body → Exit → Sink`, with
`Body → NextIteration → Merge` closing the cycle. -/
def loopC : Node := mkNode 1 "c" "Const" [] 1
def loopE : Node := mkNode 2 "e" "Enter" [tsr "c" 0] 1 [("frame_name", "loop1")]
def loopM : Node := mkNode 3 "m" "Merge" [tsr "e" 0, tsr "n" 0] 1
def loopB : Node := mkNode 4 "b" "Body" [tsr "m" 0] 1
def loopN : Node := mkNode 5 "n" "NextIteration" [tsr "b" 0] 1
def loopX : Node := mkNode 6 "x" "Exit" [tsr "b" 0] 1
def loopS : Node := mkNode 7 "s" "Sink" [tsr "x" 0] 1

/-- The one-while-loop graph of claim C3. -/
def loopGraph : Graph :=
  mkGraph 0 false 8 [loopC, loopE, loopM, loopB, loopN, loopX, loopS]

/-- A node with no inputs at all. -/
def ctrlA : Node := mkNode 1 "A" "Const" [] 1

/-- A node whose only incoming edge is a control input (zero data
inputs). -/
def ctrlB : Node := mkNode 2 "B" "NoOp" [] 0 [] [] ["A"]

/-- Graph whose node `B` has only a control input. -/
def ctrlGraph : Graph := mkGraph 0 false 3 [ctrlA, ctrlB]

/-- Two nodes forming a pure data cycle with no zero-input entry point. -/
def cycX : Node := mkNode 1 "X" "Op" [tsr "Y" 0] 1
def cycY : Node := mkNode 2 "Y" "Op" [tsr "X" 0] 1

/-- Graph consisting of an isolated two-node data cycle. -/
def cycGraph : Graph := mkGraph 0 false 3 [cycX, cycY]

/-- A node declaring colocation with node `B` through its `_class`
attribute. -/
def colocA : Node := mkNode 1 "A" "OpA" [] 1 [] ["loc:@B"]
def colocB : Node := mkNode 2 "B" "OpB" [] 1

/-- Graph with a colocation pair, copied in place in claim C2. -/
def colocGraph : Graph := mkGraph 0 false 3 [colocA, colocB]

/-- The copy of `colocA` produced by the in-place copy of
`{colocA, colocB}` into `colocGraph`. -/
def colocACopy : Node :=
  { nid := 3, name := "A_1", opType := "OpA", device := "", attrs := [],
    classAttr := ["loc:@B"], inputs := [], ctrlInputs := [], numOutputs := 1 }

/-- The copy of `colocB` produced by the same in-place copy. -/
def colocBCopy : Node :=
  { nid := 4, name := "B_1", opType := "OpB", device := "", attrs := [],
    classAttr := [], inputs := [], ctrlInputs := [], numOutputs := 1 }

/-- A node and its copy, recorded in a `TransformerInfo` for the lookup
claims. -/
def c4Orig : Node := mkNode 1 "a" "Op" [] 1
def c4Copy : Node := mkNode 2 "a_1" "Op" [] 1

/-- A `TransformerInfo` holding one node mapping and one tensor mapping. -/
def c4Info : TransformerInfo :=
  { transformedOps := [(c4Orig, c4Copy)],
    transformedTs := [(tsr "a" 0, tsr "a_1" 0)] }

/-- Two disconnected chains `a → b` and `c → d`. -/
def discA : Node := mkNode 1 "a" "Const" [] 1
def discB : Node := mkNode 2 "b" "Op" [tsr "a" 0] 1
def discC : Node := mkNode 3 "c" "Const" [] 1
def discD : Node := mkNode 4 "d" "Op" [tsr "c" 0] 1

/-- Graph of two disconnected chains (claim C6). -/
def discGraph : Graph := mkGraph 0 false 5 [discA, discB, discC, discD]

/-- `x → f`, plus a replacement source `x2` (claim C8). -/
def gxX : Node := mkNode 1 "x" "Const" [] 1
def gxF : Node := mkNode 2 "f" "F" [tsr "x" 0] 1
def gxX2 : Node := mkNode 3 "x2" "Const" [] 1

/-- Graph for the successful `graph_replace` run of claim C8. -/
def gxGraph : Graph := mkGraph 0 false 4 [gxX, gxF, gxX2]

/-- Target tree for claim C8: the replaced tensor `f:0` next to the
untouched tensor `x2:0`. -/
def gxTargets : TTree := .branch [.leaf (tsr "f" 0), .leaf (tsr "x2" 0)]

/-- Replacement map for claim C8: consume `x2:0` instead of `x:0`. -/
def gxRepl : List (Tensor × Tensor) := [(tsr "x" 0, tsr "x2" 0)]

/-- Graph already containing `foo` and `Foo_1` (claim C5's example). -/
def c5G : Graph :=
  mkGraph 0 false 3 [mkNode 1 "foo" "Op" [] 0, mkNode 2 "Foo_1" "Op" [] 0]

/-- The transform working state for copying `{colocA, colocB}` in place
into `colocGraph` with empty scopes (the state `graph_replace` would
build). -/
def colocInfo : TmpInfo :=
  { sgvOps := [colocA, colocB], sgvInputs := [], srcGraph := colocGraph,
    scope := "", dstGraph := colocGraph, scopeDst := "", sameGraph := true,
    transformedOps := [], transformedTs := [], tmpCyclicTs := [],
    collections := [] }

/-- The result of the default node-copy handler on `colocA` in that
state. -/
def colocHandlerRes : TmpInfo × Node × List Tensor :=
  (copyOpHandler colocInfo colocA []).toOption.getD (colocInfo, colocA, [])

/-- The result of the full in-place copy of `{colocA, colocB}`. -/
def colocCallRes : Graph × List (Node × Node) × List (Tensor × Tensor) :=
  (copyWithInputReplacements colocGraph [colocA, colocB] [] "" "" false
    ).toOption.getD (colocGraph, [], [])

/-- The result of the successful `graph_replace` run of claim C8. -/
def gxRes : Graph × List (Node × Node) × List (Tensor × Tensor) :=
  (graphReplaceInfo gxGraph gxTargets gxRepl "" "" false
    ).toOption.getD (gxGraph, [], [])

/-- A node-copy handler that returns the node being copied itself — the
in-place transformation that `_copy_ops` must reject. -/
def idHandlers : Handlers :=
  { opHandler := fun info op _ => .ok (info, op, op.outputs),
    externalInputHandler := keepTIfPossibleHandler,
    hiddenInputHandler := keepTIfPossibleHandler }

/-- Handlers that leave the recorded original-to-copy maps alone (they may
create nodes and queue cyclic tensors, but only `_copy_ops` itself writes
`transformed_ops`/`transformed_ts`).  All default handlers behave this
way. -/
def HandlersTame (h : Handlers) : Prop :=
  (∀ info op ins res, h.opHandler info op ins = .ok res →
     res.1.transformedOps = info.transformedOps ∧
     res.1.transformedTs = info.transformedTs) ∧
  (∀ info t res, h.externalInputHandler info t = .ok res →
     res.1.transformedOps = info.transformedOps ∧
     res.1.transformedTs = info.transformedTs) ∧
  (∀ info t res, h.hiddenInputHandler info t = .ok res →
     res.1.transformedOps = info.transformedOps ∧
     res.1.transformedTs = info.transformedTs)

end GDE

deriving instance DecidableEq for Except

/-! Theorems.  First, facts about `Nat.toDigitsCore` / `Nat.repr` needed to
characterize `unique_name`'s suffix search. -/

namespace GDE

theorem toDigitsCore_append (b : Nat) :
    ∀ (f n : Nat) (ds : List Char),
      Nat.toDigitsCore b f n ds = Nat.toDigitsCore b f n [] ++ ds := by
  intro f
  induction f with
  | zero => intro n ds; simp [Nat.toDigitsCore]
  | succ f ih =>
    intro n ds
    simp only [Nat.toDigitsCore]
    by_cases h : n / b = 0
    · simp [h]
    · simp only [h, if_false]
      rw [ih (n / b) (Nat.digitChar (n % b) :: ds),
          ih (n / b) [Nat.digitChar (n % b)]]
      simp

theorem toDigitsCore_fuel (b : Nat) (hb : 2 ≤ b) :
    ∀ (f g n : Nat) (ds : List Char), 1 ≤ f → 1 ≤ g → n < b ^ f → n < b ^ g →
      Nat.toDigitsCore b f n ds = Nat.toDigitsCore b g n ds := by
  intro f
  induction f with
  | zero => intro g n ds hf; omega
  | succ f ih =>
    intro g n ds _ hg hnf hng
    have hb0 : 0 < b := by omega
    match g, hg with
    | g + 1, _ =>
      simp only [Nat.toDigitsCore]
      by_cases h : n / b = 0
      · simp [h]
      · simp only [h, if_false]
        have hnb : b ≤ n := by
          by_contra hlt
          exact h (Nat.div_eq_of_lt (by omega))
        have hf1 : 1 ≤ f := by
          rcases Nat.eq_zero_or_pos f with h0 | h1
          · subst h0; simp at hnf; omega
          · exact h1
        have hg1 : 1 ≤ g := by
          rcases Nat.eq_zero_or_pos g with h0 | h1
          · subst h0; simp at hng; omega
          · exact h1
        apply ih g (n / b) _ hf1 hg1
        · exact (Nat.div_lt_iff_lt_mul hb0).mpr (by
            calc n < b ^ (f + 1) := hnf
            _ = b ^ f * b := by rw [Nat.pow_succ])
        · exact (Nat.div_lt_iff_lt_mul hb0).mpr (by
            calc n < b ^ (g + 1) := hng
            _ = b ^ g * b := by rw [Nat.pow_succ])

theorem toDigitsCore_chars (b : Nat) (hb : 0 < b) :
    ∀ (f n : Nat) (ds : List Char) (c : Char),
      c ∈ Nat.toDigitsCore b f n ds →
      c ∈ ds ∨ ∃ m, m < b ∧ c = Nat.digitChar m := by
  intro f
  induction f with
  | zero => intro n ds c hc; exact Or.inl hc
  | succ f ih =>
    intro n ds c hc
    simp only [Nat.toDigitsCore] at hc
    by_cases h : n / b = 0
    · simp only [h, if_pos] at hc
      rcases List.mem_cons.mp hc with h1 | h1
      · exact Or.inr ⟨n % b, Nat.mod_lt _ hb, h1⟩
      · exact Or.inl h1
    · simp only [h, if_false] at hc
      rcases ih _ _ _ hc with h1 | h1
      · rcases List.mem_cons.mp h1 with h2 | h2
        · exact Or.inr ⟨n % b, Nat.mod_lt _ hb, h2⟩
        · exact Or.inl h2
      · exact Or.inr h1

theorem decode_digitChar : ∀ m, m < 10 → (Nat.digitChar m).toNat - 48 = m := by
  decide

theorem decode_append_digit (cs : List Char) (c : Char) :
    decodeDigits (cs ++ [c]) = decodeDigits cs * 10 + (c.toNat - 48) := by
  simp [decodeDigits, List.foldl_append]

theorem lt_ten_pow (n : Nat) : n < 10 ^ n := by
  calc n < 2 ^ n := Nat.lt_two_pow n
  _ ≤ 10 ^ n := Nat.pow_le_pow_left (by omega) n

theorem decode_toDigits : ∀ n : Nat, decodeDigits (Nat.toDigits 10 n) = n := by
  intro n
  induction n using Nat.strong_induction_on with
  | _ n ih =>
    by_cases h : n < 10
    · have hdiv : n / 10 = 0 := Nat.div_eq_of_lt h
      have hmod : n % 10 = n := Nat.mod_eq_of_lt h
      simp only [Nat.toDigits, Nat.toDigitsCore, hdiv, if_pos]
      simp only [decodeDigits, List.foldl, hmod]
      have := decode_digitChar n h
      omega
    · have h10 : ¬ n / 10 = 0 := by
        intro e
        have := Nat.div_eq_of_lt (show n < 10 by omega)
        omega
      have e1 : Nat.toDigits 10 n
          = Nat.toDigitsCore 10 n (n / 10) [Nat.digitChar (n % 10)] := by
        simp only [Nat.toDigits, Nat.toDigitsCore, h10, if_false]
      have hn1 : 1 ≤ n := by omega
      have e2 : Nat.toDigitsCore 10 n (n / 10) [Nat.digitChar (n % 10)]
          = Nat.toDigitsCore 10 (n / 10 + 1) (n / 10) [Nat.digitChar (n % 10)] := by
        apply toDigitsCore_fuel 10 (by omega) n (n / 10 + 1) (n / 10) _ hn1 (by omega)
        · calc n / 10 ≤ n := Nat.div_le_self n 10
          _ < 10 ^ n := lt_ten_pow n
        · calc n / 10 < 10 ^ (n / 10) := lt_ten_pow (n / 10)
          _ ≤ 10 ^ (n / 10 + 1) := Nat.pow_le_pow_right (by omega) (by omega)
      rw [e1, e2, toDigitsCore_append, decode_append_digit]
      have e3 : Nat.toDigitsCore 10 (n / 10 + 1) (n / 10) [] = Nat.toDigits 10 (n / 10) := rfl
      rw [e3, ih (n / 10) (by omega)]
      have h2 : (Nat.digitChar (n % 10)).toNat - 48 = n % 10 :=
        decode_digitChar _ (Nat.mod_lt _ (by omega))
      omega

theorem toDigits_inj (m n : Nat) (h : Nat.toDigits 10 m = Nat.toDigits 10 n) :
    m = n := by
  have hm := decode_toDigits m
  rw [h, decode_toDigits n] at hm
  omega

theorem digitChar_toLower : ∀ m, m < 10 →
    Char.toLower (Nat.digitChar m) = Nat.digitChar m := by
  decide

theorem map_id_of_mem {α : Type} (f : α → α) :
    ∀ (l : List α), (∀ a ∈ l, f a = a) → l.map f = l := by
  intro l
  induction l with
  | nil => intro _; rfl
  | cons a l ih =>
    intro h
    simp only [List.map_cons]
    rw [h a (by simp), ih (fun b hb => h b (by simp [hb]))]

theorem map_toLower_toDigits (n : Nat) :
    (Nat.toDigits 10 n).map Char.toLower = Nat.toDigits 10 n := by
  apply map_id_of_mem
  intro c hc
  rcases toDigitsCore_chars 10 (by omega) (n + 1) n [] c hc with h | ⟨m, hm, rfl⟩
  · cases h
  · exact digitChar_toLower m hm

theorem candName_data (name : String) (i : Nat) :
    (candName name i).data = (name.data ++ ['_']) ++ (Nat.repr i).data := rfl

theorem strLower_candName (name : String) (i : Nat) :
    (strLower (candName name i)).data
      = (name.data.map Char.toLower ++ ['_']) ++ (Nat.repr i).data := by
  show ((candName name i).data.map Char.toLower) = _
  rw [candName_data, List.map_append, List.map_append]
  have h1 : (['_'] : List Char).map Char.toLower = ['_'] := by decide
  have h2 : (Nat.repr i).data.map Char.toLower = (Nat.repr i).data :=
    map_toLower_toDigits i
  rw [h1, h2]

theorem candLower_inj (name : String) (i j : Nat)
    (h : strLower (candName name i) = strLower (candName name j)) : i = j := by
  have hd := congrArg String.data h
  rw [strLower_candName, strLower_candName] at hd
  have h3 : (Nat.repr i).data = (Nat.repr j).data :=
    List.append_cancel_left hd
  exact toDigits_inj i j h3

theorem nameInUse_iff (names : List String) (name : String) :
    nameInUse names name = true ↔ strLower name ∈ names.map strLower := by
  simp [nameInUse, List.contains, List.elem_iff]

theorem smallest_free_index_le (names : List String) (name : String) (i : Nat)
    (h1 : 1 ≤ i)
    (hused : ∀ j, j < i → 1 ≤ j → nameInUse names (candName name j) = true) :
    i ≤ names.length + 1 := by
  by_contra hlt
  push_neg at hlt
  have hmapsto : ∀ k : Fin (i - 1),
      strLower (candName name (k.1 + 1)) ∈ (names.map strLower) := by
    intro k
    have hk := k.2
    exact (nameInUse_iff _ _).mp (hused (k.1 + 1) (by omega) (by omega))
  have hcard : (Finset.univ : Finset (Fin (i - 1))).card
      ≤ (names.map strLower).toFinset.card := by
    apply Finset.card_le_card_of_injOn
      (fun k : Fin (i - 1) => strLower (candName name (k.1 + 1)))
    · intro k _
      exact List.mem_toFinset.mpr (hmapsto k)
    · intro a _ b _ hab
      have := candLower_inj name (a.1 + 1) (b.1 + 1) hab
      exact Fin.ext (by omega)
  have hlen := List.toFinset_card_le (names.map strLower)
  simp only [Finset.card_univ, Fintype.card_fin, List.length_map] at hcard hlen
  omega

theorem findSuffix_eq_of_smallest (names : List String) (name : String) :
    ∀ (fuel i0 i : Nat), i0 ≤ i → i - i0 < fuel →
      nameInUse names (candName name i) = false →
      (∀ j, j < i → i0 ≤ j → nameInUse names (candName name j) = true) →
      findSuffix names name fuel i0 = i := by
  intro fuel
  induction fuel with
  | zero => intro i0 i h1 h2 _ _; omega
  | succ fuel ih =>
    intro i0 i h1 h2 hfree hused
    simp only [findSuffix]
    by_cases hc : nameInUse names (candName name i0) = true
    · rw [if_pos hc]
      have hne : i0 ≠ i := by
        intro e
        rw [e, hfree] at hc
        cases hc
      apply ih (i0 + 1) i (by omega) (by omega) hfree
      intro j hj1 hj2
      exact hused j hj1 (by omega)
    · have hb : nameInUse names (candName name i0) = false :=
        Bool.not_eq_true _ |>.mp hc
      rw [if_neg (by simp [hb])]
      by_contra hne
      have hlt2 : i0 < i := by omega
      have := hused i0 hlt2 (Nat.le_refl i0)
      rw [hb] at this
      cases this

/-- Claim C5: for every graph and candidate name, if no existing node name
equals the candidate case-insensitively then `unique_name` returns the
candidate unchanged; otherwise it returns `name_i` for the smallest
`i ≥ 1` such that `name_i` is unused case-insensitively. -/
theorem c5_unique_name (g : Graph) (name : String) :
    (g.nameInUseG name = false → g.uniqueName name = name) ∧
    (∀ i, 1 ≤ i → g.nameInUseG name = true →
      nameInUse g.nodeNames (candName name i) = false →
      (∀ j, j < i → 1 ≤ j → nameInUse g.nodeNames (candName name j) = true) →
      g.uniqueName name = candName name i) := by
  constructor
  · intro h
    simp [Graph.uniqueName, uniqueNameList, Graph.nameInUseG] at h ⊢
    simp [h]
  · intro i h1 hux hfree hused
    simp only [Graph.nameInUseG] at hux
    simp only [Graph.uniqueName, uniqueNameList, hux]
    simp only [not_true_eq_false, if_false]
    apply congrArg (candName name)
    apply findSuffix_eq_of_smallest g.nodeNames name (g.nodeNames.length + 1)
      1 i h1 ?_ hfree (fun j hj1 hj2 => hused j hj1 hj2)
    have := smallest_free_index_le g.nodeNames name i h1 hused
    omega

/-- Witness for C5: on a graph containing `foo` and `Foo_1`,
`unique_name("Foo")` returns `Foo_2`; on the empty graph it returns
`Foo` unchanged. -/
theorem c5_unique_name_witness :
    c5G.nameInUseG "Foo" = true ∧
    nameInUse c5G.nodeNames (candName "Foo" 2) = false ∧
    c5G.uniqueName "Foo" = candName "Foo" 2 ∧
    (mkGraph 0 false 1 []).nameInUseG "Foo" = false ∧
    (mkGraph 0 false 1 []).uniqueName "Foo" = "Foo" := by
  refine ⟨by decide, by decide, ?_, by decide, ?_⟩
  · exact (c5_unique_name c5G "Foo").2 2 (by decide) (by decide) (by decide)
      (by decide)
  · exact (c5_unique_name (mkGraph 0 false 1 []) "Foo").1 (by decide)

/-- Helper: `add_node`'s registration step bumps the version by exactly one
whenever it returns normally. -/
theorem addNodeRegister_version (g g' : Graph) (nm op : String) (n : Node)
    (h : g.addNodeRegister nm op = (g', .ok n)) :
    g'.version = g.version + 1 := by
  simp only [Graph.addNodeRegister, Graph.getNextId] at h
  split at h
  · cases h
  · rename_i g3 heq
    simp only [Graph.incrementVersionCounter] at heq
    split at heq
    · cases heq
    · cases heq
      cases h
      rfl

/-- Helper: `add_node`'s registration step on a frozen graph raises
`RuntimeError` after registering the node and advancing the id counter,
leaving the version alone. -/
theorem addNodeRegister_frozen (g : Graph) (nm op : String)
    (hf : g.frozen = true) :
    (g.addNodeRegister nm op).2 = .error .runtimeError ∧
    (g.addNodeRegister nm op).1.version = g.version ∧
    (g.addNodeRegister nm op).1.nodeNames = g.nodeNames ++ [nm] ∧
    (g.addNodeRegister nm op).1.nextId = g.nextId + 1 := by
  simp only [Graph.addNodeRegister, Graph.getNextId,
    Graph.incrementVersionCounter, hf, if_true, Graph.nodeNames]
  simp

/-- Counterexample to claim C1: on a frozen graph, `add_node` does raise
`RuntimeError` and leaves `version` unchanged, but it does *not* leave the
rest of the prior state intact — the new name is already registered and
the node-identity counter has advanced when the error escapes
(`Node(self, self._get_next_id(), ...)` and the registry insertion happen
before `increment_version_counter` checks `frozen`). -/
theorem c1_counterexample :
    (frozenG.addNode "b" "Op" true).2 = .error .runtimeError ∧
    (frozenG.addNode "b" "Op" true).1.version = frozenG.version ∧
    frozenG.nodeNames = ["a"] ∧
    (frozenG.addNode "b" "Op" true).1.nodeNames = ["a", "b"] ∧
    frozenG.nextId = 2 ∧
    (frozenG.addNode "b" "Op" true).1.nextId = 3 := by
  decide

/-- Amended C1: on a frozen graph, every `add_node` call fails before the
version is bumped, so `version` is unchanged; with name uniquification (the
default) — or with a free name and `uniquify_name=False` — the failure is a
`RuntimeError` raised only *after* the node has been registered and the
node-identity counter advanced; with `uniquify_name=False` and a
case-insensitively taken name the call fails earlier, with `ValueError`,
and then the whole state is intact. -/
theorem c1_amended (g : Graph) (name opName : String) (hf : g.frozen = true) :
    ((g.addNode name opName true).2 = .error .runtimeError ∧
     (g.addNode name opName true).1.version = g.version ∧
     (g.addNode name opName true).1.nodeNames = g.nodeNames ++ [g.uniqueName name] ∧
     (g.addNode name opName true).1.nextId = g.nextId + 1) ∧
    (g.nameInUseG name = true →
     g.addNode name opName false = (g, .error .valueError)) ∧
    (g.nameInUseG name = false →
     ((g.addNode name opName false).2 = .error .runtimeError ∧
      (g.addNode name opName false).1.version = g.version ∧
      (g.addNode name opName false).1.nodeNames = g.nodeNames ++ [name] ∧
      (g.addNode name opName false).1.nextId = g.nextId + 1)) := by
  refine ⟨?_, ?_, ?_⟩
  · simpa only [Graph.addNode, if_true] using
      addNodeRegister_frozen g (g.uniqueName name) opName hf
  · intro hu
    simp [Graph.addNode, hu]
  · intro hu
    have h2 := addNodeRegister_frozen g name opName hf
    simp only [Graph.addNode, hu, Bool.false_eq_true, if_false]
    simpa using h2

/-- Witness for the amended C1 on the concrete frozen graph. -/
theorem c1_amended_witness :
    frozenG.frozen = true ∧
    (frozenG.addNode "x" "Op" true).2 = .error .runtimeError ∧
    (frozenG.addNode "x" "Op" true).1.version = frozenG.version ∧
    (frozenG.addNode "x" "Op" true).1.nextId = frozenG.nextId + 1 := by
  have h := c1_amended frozenG "x" "Op" (by decide)
  exact ⟨by decide, h.1.1, h.1.2.1, h.1.2.2.2⟩

/-- Claim C7: `add_node` (and `add_node_from_node_def`, which performs its
version change solely through its internal `add_node` call) bumps
`Graph.version` by exactly one when it returns normally, and the other
graph operations — freezing, the frame-analysis queries (which only fill
caches) and collection insertion — leave the version unchanged.
(`increment_version_counter` is the internal commit primitive those
mutators invoke, not an independent operation.) -/
theorem c7_version_counter :
    (∀ (g g' : Graph) (nm op : String) (u : Bool) (n : Node),
        g.addNode nm op u = (g', .ok n) → g'.version = g.version + 1) ∧
    (∀ (g g' : Graph) (nd : NodeDef) (si sc : Bool) (n : Node),
        g.addNodeFromNodeDef nd si sc = (g', .ok n) →
        g'.version = g.version + 1) ∧
    (∀ (g : Graph) (b : Bool), (g.setFrozen b).version = g.version) ∧
    (∀ (g : Graph) (n : Node),
        ((g.nodeToFrameNames n).1).version = g.version) ∧
    (∀ (g : Graph) (fn : String),
        ((g.frameNameToNodes fn).1).version = g.version) ∧
    (∀ (g : Graph), ((g.getFrameNames).1).version = g.version) ∧
    (∀ (g : Graph) (nm mem : String),
        (g.addToCollection nm mem).version = g.version) := by
  have haddv : ∀ (g g' : Graph) (nm op : String) (u : Bool) (n : Node),
      g.addNode nm op u = (g', .ok n) → g'.version = g.version + 1 := by
    intro g g' nm op u n h
    simp only [Graph.addNode] at h
    split at h
    · exact addNodeRegister_version g g' _ op n h
    · split at h
      · cases h
      · exact addNodeRegister_version g g' _ op n h
  refine ⟨haddv, ?_, ?_, ?_, ?_, ?_, ?_⟩
  · intro g g' nd si sc n h
    simp only [Graph.addNodeFromNodeDef] at h
    split at h
    · cases h
    · split at h
      · cases h
      · rename_i g1 ret heq
        cases h
        have := haddv g g1 nd.name nd.op true ret heq
        simpa [Graph.updateNode] using this
  · intro g b; rfl
  · intro g n
    simp only [Graph.nodeToFrameNames]
    split
    · rfl
    · split
      · rfl
      · rfl
  · intro g fn
    simp only [Graph.frameNameToNodes]
    split
    · rfl
    · split
      · rfl
      · rfl
  · intro g
    simp only [Graph.getFrameNames]
    split
    · rfl
    · split
      · rfl
      · rfl
  · intro g nm mem
    simp only [Graph.addToCollection]
    split
    · rfl
    · rfl

/-- Witness for C7: a normal `add_node` on the two-node graph `c5G` takes
the version from 0 to 1. -/
theorem c7_version_counter_witness :
    c5G.addNode "z" "Op" true
      = ((c5G.addNode "z" "Op" true).1, .ok (mkNode 3 "z" "Op" [] 0)) ∧
    (c5G.addNode "z" "Op" true).1.version = c5G.version + 1 := by
  have h : c5G.addNode "z" "Op" true
      = ((c5G.addNode "z" "Op" true).1, .ok (mkNode 3 "z" "Op" [] 0)) := by
    decide
  exact ⟨h, c7_version_counter.1 c5G _ "z" "Op" true _ h⟩

/-- Claim C4 (code bug): `transformed`/`original` with a plain string never
reach their name-scan branch — `_transformed_elem` and `_original_elem`
first call `_get_transformed_map`, whose type dispatch raises `TypeError`
for anything that is not a node or a tensor, so the
`isinstance(..., string_types)` handling below it is dead code.  Lookup by
object identity does return the mapped counterpart; lookup by the same
element's name raises instead of being equivalent to it. -/
theorem c4_string_lookup :
    (∀ (info : TransformerInfo) (s : String) (fn : Option (Elem → Elem)),
        transformedElem info (.str s) fn = .error .typeError ∧
        originalElem info (.str s) fn = .error .typeError) ∧
    transformedElem c4Info (.node c4Orig) none = .ok (some (.node c4Copy)) ∧
    transformedElem c4Info (.tensor (tsr "a" 0)) none
      = .ok (some (.tensor (tsr "a_1" 0))) ∧
    transformedElem c4Info (.str "a") none = .error .typeError ∧
    originalElem c4Info (.str "a_1") none = .error .typeError := by
  exact ⟨fun info s fn => ⟨rfl, rfl⟩, by decide, by decide, rfl, rfl⟩

/-- Counterexample to claim C3: in the one-loop graph, the body nodes are
mapped to the tuple `(None, "loop1")` — the Python code snapshots
`tuple(frame_name_stack)` including the root sentinel `None` it seeded the
stack with — not to `("loop1",)`; the nodes outside the loop are not all
mapped to one root value (`()` before the loop versus `(None,)` after the
`Exit` popped the stack back); and `frame_name_to_nodes("loop1")` contains
the `Enter` node besides the strictly-interior nodes. -/
theorem c3_counterexample :
    (loopGraph.nodeToFrameNames loopM).2 = .ok [none, some "loop1"] ∧
    (loopGraph.nodeToFrameNames loopM).2 ≠ .ok [some "loop1"] ∧
    (loopGraph.nodeToFrameNames loopC).2 = .ok [] ∧
    (loopGraph.nodeToFrameNames loopS).2 = .ok [none] ∧
    (loopGraph.nodeToFrameNames loopC).2 ≠ (loopGraph.nodeToFrameNames loopS).2 ∧
    (loopGraph.frameNameToNodes "loop1").2 = .ok ["e", "m", "b", "n"] ∧
    (loopGraph.frameNameToNodes "loop1").2 ≠ .ok ["m", "b", "n"] := by
  decide

/-- Amended C3: in the one-loop graph the analysis maps the `Enter` and
every node strictly between `Enter` and `Exit` to `(None, "loop1")` (the
frame tuple keeps the root sentinel), maps the nodes before the `Enter` to
`()` and the `Exit` and everything after it to `(None,)`, and
`frame_name_to_nodes("loop1")` returns the `Enter` together with the nodes
strictly between `Enter` and `Exit`. -/
theorem c3_amended :
    (loopGraph.nodeToFrameNames loopE).2 = .ok [none, some "loop1"] ∧
    (loopGraph.nodeToFrameNames loopM).2 = .ok [none, some "loop1"] ∧
    (loopGraph.nodeToFrameNames loopB).2 = .ok [none, some "loop1"] ∧
    (loopGraph.nodeToFrameNames loopN).2 = .ok [none, some "loop1"] ∧
    (loopGraph.nodeToFrameNames loopC).2 = .ok [] ∧
    (loopGraph.nodeToFrameNames loopX).2 = .ok [none] ∧
    (loopGraph.nodeToFrameNames loopS).2 = .ok [none] ∧
    (loopGraph.frameNameToNodes "loop1").2 = .ok ["e", "m", "b", "n"] := by
  decide

/-- Helper: membership in an append-accumulating fold. -/
theorem mem_foldl_append {α β : Type} (f : α → List β) :
    ∀ (l : List α) (init : List β) (b : β),
      b ∈ l.foldl (fun acc a => acc ++ f a) init →
      b ∈ init ∨ ∃ a ∈ l, b ∈ f a := by
  intro l
  induction l with
  | nil => intro init b h; exact Or.inl h
  | cons a l ih =>
    intro init b h
    rcases ih (init ++ f a) b h with h1 | ⟨a2, ha2, hb⟩
    · rcases List.mem_append.mp h1 with h2 | h2
      · exact Or.inl h2
      · exact Or.inr ⟨a, by simp, h2⟩
    · exact Or.inr ⟨a2, by simp [ha2], hb⟩

/-- Helper: every node the breadth-first search's enqueue fold puts in the
queue was already queued or is one of the successors being enqueued. -/
theorem bfsEnqueue_mem :
    ∀ (succs q : List Node) (v : List String) (m : Node),
      m ∈ (succs.foldl (fun (qv : List Node × List String) m =>
        if qv.2.contains m.name then qv else (qv.1 ++ [m], qv.2 ++ [m.name]))
        (q, v)).1 → m ∈ q ∨ m ∈ succs := by
  intro succs
  induction succs with
  | nil => intro q v m h; exact Or.inl h
  | cons s succs ih =>
    intro q v m h
    simp only [List.foldl_cons] at h
    by_cases hc : v.contains s.name
    · simp only [hc, if_true] at h
      rcases ih q v m h with h1 | h1
      · exact Or.inl h1
      · exact Or.inr (by simp [h1])
    · simp only [hc, if_false] at h
      rcases ih (q ++ [s]) (v ++ [s.name]) m h with h1 | h1
      · rcases List.mem_append.mp h1 with h2 | h2
        · exact Or.inl h2
        · simp only [List.mem_singleton] at h2
          exact Or.inr (by simp [h2])
      · exact Or.inr (by simp [h1])

/-- Helper: every node recorded by the frame breadth-first search is
data-reachable — the traversal only ever follows output-tensor consumer
links from the queued nodes. -/
theorem frameBFS_sound (g : Graph) :
    ∀ (fuel : Nat) (st st' : FrameState),
      frameBFS g fuel st = .ok st' →
      (∀ n ∈ st.queue, DataReachable g n) →
      (∀ pr ∈ st.nodeToFrame, ∃ nd, DataReachable g nd ∧ nd.name = pr.1) →
      ∀ pr ∈ st'.nodeToFrame, ∃ nd, DataReachable g nd ∧ nd.name = pr.1 := by
  intro fuel
  induction fuel with
  | zero =>
    intro st st' h hq hn
    injection h with h
    subst h
    exact hn
  | succ fuel ih =>
    intro st st' h hq hn
    obtain ⟨q, vis, stk, tp, n2f, f2n⟩ := st
    cases q with
    | nil =>
      simp only [frameBFS] at h
      injection h with h
      subst h
      exact hn
    | cons cur rest =>
      simp only [frameBFS] at h
      have hcur : DataReachable g cur := hq cur (by simp)
      split at h
      · cases h
      · rename_i stack1 tup1 heq
        apply ih _ st' h
        · intro n hnq
          simp only at hnq
          rcases bfsEnqueue_mem _ rest vis n hnq with h1 | h1
          · exact hq n (by simp [h1])
          · rcases mem_foldl_append g.consumers cur.outputs [] n h1 with
              h2 | ⟨t, ht, hcons⟩
            · cases h2
            · exact DataReachable.step cur n t hcur ht hcons
        · intro pr hpr
          simp only at hpr
          rcases List.mem_append.mp hpr with h1 | h1
          · exact hn pr h1
          · simp only [List.mem_singleton] at h1
            exact ⟨cur, hcur, by rw [h1]⟩

/-- Helper: nothing in the isolated two-node data cycle is data-reachable
(there is no zero-data-input entry point). -/
theorem cycGraph_unreachable : ∀ nd : Node, ¬ DataReachable cycGraph nd := by
  intro nd h
  induction h with
  | root n hmem hlen =>
    have hn : n = cycX ∨ n = cycY := by
      simpa [cycGraph, mkGraph] using hmem
    rcases hn with rfl | rfl
    · simp [cycX, mkNode] at hlen
    · simp [cycY, mkNode] at hlen
  | step m n t hm ht hcons ih => exact ih

/-- Counterexample to claim C10: a node whose only incoming edges are
control inputs has zero *data* inputs, so the frame analysis treats it as
a root node and visits it — `node_to_frame_names` returns the root frame
for it instead of failing with a lookup error. -/
theorem c10_counterexample :
    ctrlB.inputs = [] ∧
    ctrlB.ctrlInputs = ["A"] ∧
    (ctrlGraph.nodeToFrameNames ctrlB).2 = .ok [] ∧
    (ctrlGraph.nodeToFrameNames ctrlB).2 ≠ .error .keyError := by
  decide

/-- Amended C10: the frame analysis visits exactly along data edges from
the zero-data-input nodes: every node in the computed node-to-frame table
is data-reachable; on a node with no data-reachable namesake the lookup
in `node_to_frame_names` fails with an unguarded `KeyError`; and a node
whose only incoming edges are control inputs has zero data inputs — it is
itself a root, is visited, and maps to the root frame, while the nodes of
a pure data cycle with no entry point are the ones left out. -/
theorem c10_amended :
    (∀ (g : Graph) tables, g.generateFrames = .ok tables →
       ∀ pr ∈ tables.1, ∃ nd, DataReachable g nd ∧ nd.name = pr.1) ∧
    (∀ (g : Graph) (n : Node) tables, g.nodeToFrameCache = none →
       g.generateFrames = .ok tables →
       (∀ nd : Node, nd.name = n.name → ¬ DataReachable g nd) →
       (g.nodeToFrameNames n).2 = .error .keyError) ∧
    (ctrlGraph.nodeToFrameNames ctrlB).2 = .ok [] ∧
    (cycGraph.nodeToFrameNames cycX).2 = .error .keyError := by
  have hsound : ∀ (g : Graph) tables, g.generateFrames = .ok tables →
      ∀ pr ∈ tables.1, ∃ nd, DataReachable g nd ∧ nd.name = pr.1 := by
    intro g tables h pr hpr
    simp only [Graph.generateFrames] at h
    split at h
    · cases h
    · rename_i st heq
      injection h with h
      subst h
      apply frameBFS_sound g _ _ st heq ?_ ?_ pr hpr
      · intro n hnq
        have hmem := List.mem_filter.mp hnq
        exact DataReachable.root n hmem.1 (by simpa using hmem.2)
      · intro pr2 h2
        cases h2
  refine ⟨hsound, ?_, by decide, by decide⟩
  intro g n tables hc hgen hnr
  simp only [Graph.nodeToFrameNames, hc, hgen]
  cases hfind : tables.1.find? (fun p => p.1 = n.name) with
  | none => simp
  | some pr =>
    exfalso
    have hmem := List.mem_of_find?_eq_some hfind
    have hpred := List.find?_some hfind
    have hname : pr.1 = n.name := of_decide_eq_true hpred
    obtain ⟨nd, hr, hnd⟩ := hsound g tables hgen pr hmem
    exact hnr nd (by rw [hnd, hname]) hr

/-- Witness for the amended C10 on the concrete data cycle. -/
theorem c10_amended_witness :
    cycGraph.nodeToFrameCache = none ∧
    cycGraph.generateFrames = .ok ([], []) ∧
    (cycGraph.nodeToFrameNames cycX).2 = .error .keyError := by
  refine ⟨by decide, by decide, ?_⟩
  exact c10_amended.2.1 cycGraph cycX ([], []) (by decide) (by decide)
    (fun nd _ => cycGraph_unreachable nd)

/-- Helper: some suffix index within the fuel bound is always free
(pigeonhole over the registered names). -/
theorem exists_free_suffix (names : List String) (nm : String) :
    ∃ i, 1 ≤ i ∧ i ≤ names.length + 1 ∧
      nameInUse names (candName nm i) = false := by
  by_contra h
  push_neg at h
  have hused : ∀ j, j < names.length + 2 → 1 ≤ j →
      nameInUse names (candName nm j) = true := by
    intro j hj1 hj2
    have := h j hj2 (by omega)
    revert this
    cases nameInUse names (candName nm j) with
    | false => intro hcon; exact absurd rfl hcon
    | true => intro _; rfl
  have := smallest_free_index_le names nm (names.length + 2) (by omega) hused
  omega

/-- Helper: the name `unique_name` returns is itself unused
(case-insensitively) among the given names. -/
theorem uniqueNameList_free (names : List String) (nm : String) :
    nameInUse names (uniqueNameList names nm) = false := by
  by_cases h : nameInUse names nm = true
  · obtain ⟨i, hi1, hi2, hifree⟩ := exists_free_suffix names nm
    have hex : ∃ k, nameInUse names (candName nm (k + 1)) = false :=
      ⟨i - 1, by simpa [Nat.sub_add_cancel hi1] using hifree⟩
    have hfree := Nat.find_spec hex
    have hmin : ∀ j, j < Nat.find hex + 1 → 1 ≤ j →
        nameInUse names (candName nm j) = true := by
      intro j hj1 hj2
      have hlt : j - 1 < Nat.find hex := by omega
      have := Nat.find_min hex hlt
      have hj : j - 1 + 1 = j := by omega
      rw [hj] at this
      revert this
      cases nameInUse names (candName nm j) with
      | false => intro hcon; exact absurd rfl hcon
      | true => intro _; rfl
    have hbound : Nat.find hex ≤ i - 1 :=
      Nat.find_min' hex (by simpa [Nat.sub_add_cancel hi1] using hifree)
    have heq := findSuffix_eq_of_smallest names nm (names.length + 1) 1
      (Nat.find hex + 1) (by omega) (by omega) hfree hmin
    simp only [uniqueNameList, h, not_true_eq_false, if_false, heq]
    exact hfree
  · have hb : nameInUse names nm = false := by
      revert h
      cases nameInUse names nm with
      | false => intro _; rfl
      | true => intro hcon; exact absurd rfl hcon
    simp [uniqueNameList, hb]

/-- Helper: `unique_name` is idempotent — running it on its own result
returns that result unchanged. -/
theorem uniqueNameList_idem (names : List String) (nm : String) :
    uniqueNameList names (uniqueNameList names nm) = uniqueNameList names nm := by
  have hf := uniqueNameList_free names nm
  rw [uniqueNameList]
  simp [hf]

/-- Helper: `mapM` over `Except` succeeds exactly pointwise. -/
theorem mapM_ok_forall {α β : Type} (f : α → Except GErr β) :
    ∀ (l : List α) (l' : List β), l.mapM f = .ok l' →
      List.Forall₂ (fun a b => f a = .ok b) l l' := by
  intro l
  induction l with
  | nil =>
    intro l' h
    cases h
    exact List.Forall₂.nil
  | cons a l ih =>
    intro l' h
    rw [← List.mapM'_eq_mapM] at h
    simp only [List.mapM'] at h
    cases hfa : f a with
    | error e =>
      rw [hfa] at h
      simp [Bind.bind, Except.bind] at h
    | ok b =>
      rw [hfa] at h
      cases hml : l.mapM' f with
      | error e =>
        rw [hml] at h
        simp [Bind.bind, Except.bind] at h
      | ok bs =>
        rw [hml] at h
        simp only [Bind.bind, Except.bind, Pure.pure, Except.pure,
          Except.ok.injEq] at h
        subst h
        exact List.Forall₂.cons hfa
          (ih bs (by rw [← List.mapM'_eq_mapM]; exact hml))

/-- Helper: a successful `add_node` names the node by `unique_name`. -/
theorem addNode_ok_name (g g' : Graph) (nm op : String) (n : Node)
    (h : g.addNode nm op true = (g', .ok n)) :
    n.name = g.uniqueName nm ∧ n.classAttr = [] := by
  simp only [Graph.addNode, if_true, Graph.addNodeRegister, Graph.getNextId] at h
  split at h
  · cases h
  · cases h
    exact ⟨rfl, rfl⟩

/-- Helper: a successful `add_node_from_node_def` (without input
population) registers the record's attributes verbatim and names the
node by `unique_name` of the record's name. -/
theorem addNodeFromNodeDef_ok (g g' : Graph) (nd : NodeDef) (n : Node)
    (h : g.addNodeFromNodeDef nd false false = (g', .ok n)) :
    n.name = g.uniqueName nd.name ∧ n.classAttr = nd.classAttr := by
  simp only [Graph.addNodeFromNodeDef] at h
  split at h
  · rename_i hcond
    simp at hcond
  · split at h
    · cases h
    · rename_i g1 ret heq
      cases h
      have h2 := addNode_ok_name g g1 nd.name nd.op ret heq
      constructor
      · simpa using h2.1
      · rfl

/-- Helper: `unique_name` on a graph is idempotent. -/
theorem graph_uniqueName_idem (g : Graph) (nm : String) :
    g.uniqueName (g.uniqueName nm) = g.uniqueName nm :=
  uniqueNameList_idem g.nodeNames nm

/-- Counterexample to claim C2: copying `{A, B}` in place (the situation
`graph_replace` creates, where the destination graph is the source graph
and both scopes are empty) assigns `B`'s copy the uniquified name `B_1`,
yet the copy of `A` still carries `_class = ["loc:@B"]` — the colocation
rewrite uses `info.new_name(peer)`, which never sees the destination
graph's uniquification. -/
theorem c2_counterexample :
    (copyWithInputReplacements colocGraph [colocA, colocB] [] "" "" false
      ).toOption.map (fun r => (lookupOps r.2.1 colocA, lookupOps r.2.1 colocB))
      = some (some colocACopy, some colocBCopy) ∧
    colocACopy.classAttr = ["loc:@B"] ∧
    colocBCopy.name = "B_1" ∧
    colocACopy.classAttr ≠ ["loc:@" ++ colocBCopy.name] := by
  exact ⟨by decide, by decide, by decide, by decide⟩

/-- Amended C2: the default node-copy handler rewrites every `_class`
entry `loc:@peer` to `loc:@` followed by the *scope-translated* peer name
`new_name(peer)` — not by the name actually assigned to the peer's copy —
while the copy itself is registered under
`unique_name(new_name(op.name))`; the two agree only when the translated
peer name needs no uniquification in the destination graph. -/
theorem c2_amended (info : TmpInfo) (op : Node) (newIns : List Tensor)
    (res : TmpInfo × Node × List Tensor)
    (h : copyOpHandler info op newIns = .ok res) :
    List.Forall₂ (fun s s' => ∃ nn, info.newName (strDrop s 5) = .ok nn ∧
      s' = "loc:@" ++ nn) op.classAttr res.2.1.classAttr ∧
    (∀ nm0, info.newName op.name = .ok nm0 →
      res.2.1.name = info.dstGraph.uniqueName nm0) := by
  simp only [copyOpHandler] at h
  split at h
  · cases h
  · rename_i nm0 hnm
    split at h
    · cases h
    · rename_i cls1 hcls
      split at h
      · cases h
      · rename_i g1 op1 hadd
        cases h
        have hnd := addNodeFromNodeDef_ok info.dstGraph g1 _ op1 hadd
        constructor
        · show List.Forall₂ _ op.classAttr op1.classAttr
          rw [hnd.2]
          apply List.Forall₂.imp ?_ (mapM_ok_forall _ op.classAttr cls1 hcls)
          intro a b hab
          cases hnn : info.newName (strDrop a 5) with
          | error e =>
            rw [hnn] at hab
            simp [Except.map] at hab
          | ok nn =>
            rw [hnn] at hab
            simp only [Except.map, Except.ok.injEq] at hab
            exact ⟨nn, rfl, hab.symm⟩
        · intro nm0' hnm'
          rw [hnm] at hnm'
          injection hnm' with hnm'
          subst hnm'
          show op1.name = _
          rw [hnd.1]
          exact graph_uniqueName_idem info.dstGraph nm0

/-- Witness for the amended C2: copying `colocA` with the default handler
in the in-place state yields a copy named `A_1` whose `_class` still reads
`loc:@B`. -/
theorem c2_amended_witness :
    copyOpHandler colocInfo colocA [] = .ok colocHandlerRes ∧
    colocHandlerRes.2.1.classAttr = ["loc:@B"] ∧
    colocHandlerRes.2.1.name = "A_1" := by
  have h : copyOpHandler colocInfo colocA [] = .ok colocHandlerRes := by decide
  have hthm := c2_amended colocInfo colocA [] colocHandlerRes h
  have hname := hthm.2 "A" (by decide)
  refine ⟨h, by decide, ?_⟩
  rw [hname]
  decide

/-- Helper: membership in the id-ordered insertion. -/
theorem mem_insertById (n : Node) :
    ∀ (l : List Node) (a : Node), a ∈ insertById n l ↔ a = n ∨ a ∈ l := by
  intro l
  induction l with
  | nil => intro a; simp [insertById]
  | cons m ms ih =>
    intro a
    simp only [insertById]
    by_cases hc : n.nid ≤ m.nid
    · simp [hc]
    · simp only [hc, if_false, List.mem_cons, ih]
      constructor
      · rintro (h1 | h1 | h1)
        · exact Or.inr (by simp [h1])
        · exact Or.inl h1
        · exact Or.inr (by simp [h1])
      · rintro (h1 | h1)
        · exact Or.inr (Or.inl h1)
        · rcases h1 with h2 | h2
          · exact Or.inl h2
          · exact Or.inr (Or.inr h2)

/-- Helper: sorting by id preserves membership. -/
theorem mem_sortById : ∀ (l : List Node) (a : Node), a ∈ sortById l ↔ a ∈ l := by
  intro l
  induction l with
  | nil => intro a; simp [sortById]
  | cons m ms ih =>
    intro a
    simp [sortById, mem_insertById, ih]

/-- Helper: an association-list hit survives appending entries. -/
theorem lookupOps_append_some (m l2 : List (Node × Node)) (k v : Node) :
    lookupOps m k = some v → lookupOps (m ++ l2) k = some v := by
  induction m with
  | nil => intro h; simp [lookupOps] at h
  | cons pr m ih =>
    intro h
    simp only [lookupOps, List.cons_append, List.find?] at h ⊢
    by_cases hc : pr.1 = k
    · simpa [hc] using h
    · simp only [decide_eq_false hc] at h ⊢
      exact ih h

/-- Helper: a fresh key is found in the appended entry. -/
theorem lookupOps_append_new (m : List (Node × Node)) (k v : Node) :
    lookupOps m k = none → lookupOps (m ++ [(k, v)]) k = some v := by
  induction m with
  | nil => intro _; simp [lookupOps, List.find?]
  | cons pr m ih =>
    intro h
    simp only [lookupOps, List.cons_append, List.find?] at h ⊢
    by_cases hc : pr.1 = k
    · simp [hc] at h
    · simp only [decide_eq_false hc] at h ⊢
      exact ih h

/-- Helper: every association-list hit is one of the recorded pairs. -/
theorem lookupOps_mem (m : List (Node × Node)) (k v : Node) :
    lookupOps m k = some v → (k, v) ∈ m := by
  induction m with
  | nil => intro h; simp [lookupOps] at h
  | cons pr m ih =>
    obtain ⟨a, b⟩ := pr
    intro h
    by_cases hc : a = k
    · subst hc
      simp [lookupOps, List.find?] at h
      simp [h]
    · simp only [lookupOps, List.find?] at h
      simp only [decide_eq_false hc] at h
      exact List.mem_cons_of_mem _ (ih h)

/-- Helper: a fold whose step only rewires the destination graph keeps
every other working-state field. -/
theorem foldlM_dstGraph {β : Type} (f : TmpInfo → β → Except GErr TmpInfo)
    (hf : ∀ a b a', f a b = .ok a' → ∃ g, a' = { a with dstGraph := g }) :
    ∀ (l : List β) (a a' : TmpInfo), l.foldlM f a = .ok a' →
      ∃ g, a' = { a with dstGraph := g } := by
  intro l
  induction l with
  | nil =>
    intro a a' h
    simp only [List.foldlM_nil, Pure.pure, Except.pure, Except.ok.injEq] at h
    exact ⟨a.dstGraph, by rw [← h]⟩
  | cons b l ih =>
    intro a a' h
    simp only [List.foldlM_cons] at h
    cases hfb : f a b with
    | error e =>
      rw [hfb] at h
      simp [Bind.bind, Except.bind] at h
    | ok a1 =>
      rw [hfb] at h
      simp only [Bind.bind, Except.bind] at h
      obtain ⟨g1, h1⟩ := hf a b a1 hfb
      obtain ⟨g2, h2⟩ := ih a1 a' h
      exact ⟨g2, by rw [h2, h1]⟩

/-- Helper: the collection handler only touches the destination graph. -/
theorem assignRenamed_dstGraph (a : TmpInfo) (x y : String) (a' : TmpInfo)
    (h : assignRenamedCollectionsHandler a x y = .ok a') :
    ∃ g, a' = { a with dstGraph := g } := by
  apply foldlM_dstGraph _ ?_ a.collections a a' h
  intro a0 p a1 hstep
  simp only at hstep
  by_cases hc : ¬ memB x p.2 = true
  · rw [if_pos hc] at hstep
    injection hstep with hstep
    exact ⟨a0.dstGraph, by rw [← hstep]⟩
  · rw [if_neg hc] at hstep
    split at hstep
    · cases hstep
    · injection hstep with hstep
      exact ⟨_, hstep.symm⟩

/-- Helper: the default hidden-input handler leaves the recorded maps
alone. -/
theorem keepT_maps (info : TmpInfo) (t : Tensor) (res : TmpInfo × Tensor)
    (h : keepTIfPossibleHandler info t = .ok res) :
    res.1.transformedOps = info.transformedOps ∧
    res.1.transformedTs = info.transformedTs := by
  simp only [keepTIfPossibleHandler] at h
  split at h
  · injection h with h
    rw [← h]
    exact ⟨rfl, rfl⟩
  · simp only [replaceTWithPlaceholderHandler] at h
    split at h
    · injection h with h
      rw [← h]
      exact ⟨rfl, rfl⟩
    · cases h

/-- Helper: the replacement-consulting external-input handler leaves the
recorded maps alone. -/
theorem replaceT_maps (rts : List (Tensor × Tensor)) (info : TmpInfo)
    (t : Tensor) (res : TmpInfo × Tensor)
    (h : replaceTWithReplacementHandler rts info t = .ok res) :
    res.1.transformedOps = info.transformedOps ∧
    res.1.transformedTs = info.transformedTs := by
  simp only [replaceTWithReplacementHandler] at h
  split at h
  · injection h with h
    rw [← h]
    exact ⟨rfl, rfl⟩
  · exact keepT_maps info t res h

/-- Helper: the default node-copy handler leaves the recorded maps
alone. -/
theorem copyOpHandler_maps (info : TmpInfo) (op : Node) (ins : List Tensor)
    (res : TmpInfo × Node × List Tensor)
    (h : copyOpHandler info op ins = .ok res) :
    res.1.transformedOps = info.transformedOps ∧
    res.1.transformedTs = info.transformedTs := by
  simp only [copyOpHandler] at h
  split at h
  · cases h
  · split at h
    · cases h
    · split at h
      · cases h
      · injection h with h
        rw [← h]
        exact ⟨rfl, rfl⟩

/-- Helper: the default handlers (with either default external handler)
are tame. -/
theorem defaultHandlersWith_tame (rts : List (Tensor × Tensor)) :
    HandlersTame (defaultHandlersWith (replaceTWithReplacementHandler rts)) :=
  ⟨fun info op ins res h => copyOpHandler_maps info op ins res h,
   fun info t res h => replaceT_maps rts info t res h,
   fun info t res h => keepT_maps info t res h⟩

/-- Helper: the deliberately in-place handlers are tame as well. -/
theorem idHandlers_tame : HandlersTame idHandlers :=
  ⟨fun info _ _ res h => by
      injection h with h
      rw [← h]
      exact ⟨rfl, rfl⟩,
   fun info t res h => keepT_maps info t res h,
   fun info t res h => keepT_maps info t res h⟩

/-- Helper: inversion of a successful `Except.bind`. -/
theorem except_bind_ok {α β : Type} (x : Except GErr α)
    (f : α → Except GErr β) (b : β) (h : x.bind f = .ok b) :
    ∃ a, x = .ok a ∧ f a = .ok b := by
  cases x with
  | error e => cases h
  | ok a => exact ⟨a, rfl, h⟩

/-- Helper: input resolution (`_transformed_t`) never writes the recorded
maps when the handlers are tame. -/
theorem transformedT_maps (h : Handlers) (ht : HandlersTame h) :
    ∀ (fuel : Nat) (info : TmpInfo) (t : Tensor) (cop : Node)
      (res : TmpInfo × Tensor),
      transformedT h fuel info t cop = .ok res →
      res.1.transformedOps = info.transformedOps ∧
      res.1.transformedTs = info.transformedTs := by
  intro fuel
  induction fuel with
  | zero => intro info t cop res hr; cases hr
  | succ fuel ih =>
    intro info t cop res hr
    simp only [transformedT] at hr
    split at hr
    · injection hr with hr
      rw [← hr]
      exact ⟨rfl, rfl⟩
    · split at hr
      · exact ht.2.1 info t res hr
      · split at hr
        · split at hr
          · obtain ⟨pr, hbig, hk⟩ := except_bind_ok _ _ _ hr
            injection hk with hk
            rw [← hk]
            have hpr : pr.1.transformedOps = info.transformedOps ∧
                pr.1.transformedTs = info.transformedTs := by
              split at hbig
              · split at hbig
                · cases hbig
                · exact ih info _ cop pr hbig
              · split at hbig
                · split at hbig
                  · cases hbig
                  · exact ih info _ cop pr hbig
                · split at hbig
                  · injection hbig with hbig
                    rw [← hbig]
                    exact ⟨rfl, rfl⟩
                  · cases hbig
            exact hpr
          · exact ht.2.2 info t res hr
        · exact ht.2.2 info t res hr

/-- Helper: the input-resolution fold of `_copy_ops` never writes the
recorded maps when the handlers are tame. -/
theorem resolveFold_maps (h : Handlers) (ht : HandlersTame h) (fuel : Nat)
    (op : Node) :
    ∀ (ts : List Tensor) (acc res : TmpInfo × List Tensor),
      (ts.foldlM (fun (acc : TmpInfo × List Tensor) t => do
          let r ← transformedT h fuel acc.1 t op
          pure (r.1, acc.2 ++ [r.2])) acc) = .ok res →
      res.1.transformedOps = acc.1.transformedOps ∧
      res.1.transformedTs = acc.1.transformedTs := by
  intro ts
  induction ts with
  | nil =>
    intro acc res hres
    simp only [List.foldlM_nil, Pure.pure, Except.pure, Except.ok.injEq] at hres
    rw [← hres]
    exact ⟨rfl, rfl⟩
  | cons t ts ih =>
    intro acc res hres
    simp only [List.foldlM_cons] at hres
    obtain ⟨a1, hstep, hrest⟩ := except_bind_ok _ _ _ hres
    obtain ⟨r, hT, hpure⟩ := except_bind_ok _ _ _ hstep
    injection hpure with hpure
    have hTm := transformedT_maps h ht fuel acc.1 t op r hT
    have hihm := ih a1 res hrest
    rw [← hpure] at hihm
    exact ⟨hihm.1.trans hTm.1, hihm.2.trans hTm.2⟩

/-- Helper: the output-tensor recording fold of `_copy_ops` appends
exactly the zipped pairs to the tensor map and leaves the node map
alone. -/
theorem tsFold_spec :
    ∀ (prs : List (Tensor × Tensor)) (a a' : TmpInfo),
      (prs.foldlM (fun acc (pr : Tensor × Tensor) => do
          let acc1 := { acc with transformedTs := acc.transformedTs ++ [pr] }
          assignRenamedCollectionsHandler acc1 (tensorName pr.1) (tensorName pr.2))
        a) = .ok a' →
      a'.transformedOps = a.transformedOps ∧
      a'.transformedTs = a.transformedTs ++ prs := by
  intro prs
  induction prs with
  | nil =>
    intro a a' h
    simp only [List.foldlM_nil, Pure.pure, Except.pure, Except.ok.injEq] at h
    rw [← h]
    exact ⟨rfl, by simp⟩
  | cons pr prs ih =>
    intro a a' h
    simp only [List.foldlM_cons] at h
    obtain ⟨a1, hstep, hrest⟩ := except_bind_ok _ _ _ h
    obtain ⟨g1, hg⟩ := assignRenamed_dstGraph _ _ _ _ hstep
    obtain ⟨h1, h2⟩ := ih a1 a' hrest
    subst hg
    constructor
    · exact h1
    · rw [h2]
      simp

/-- Helper: one successful iteration of the `_copy_ops` loop records
exactly one node mapping — with a copy distinct from the original — and
the zipped output-tensor mappings. -/
theorem copyOneOp_ok (h : Handlers) (ht : HandlersTame h) (fuel : Nat)
    (info : TmpInfo) (op : Node) (info' : TmpInfo)
    (hc : copyOneOp h fuel info op = .ok info') :
    ∃ op' outs,
      info'.transformedOps = info.transformedOps ++ [(op, op')] ∧ op' ≠ op ∧
      info'.transformedTs = info.transformedTs ++ op.outputs.zip outs := by
  simp only [copyOneOp] at hc
  obtain ⟨resolved, hres, hc1⟩ := except_bind_ok _ _ _ hc
  obtain ⟨r2, hop, hc2⟩ := except_bind_ok _ _ _ hc1
  have hrm := resolveFold_maps h ht fuel op op.inputs (info, []) resolved hres
  have hhm := ht.1 resolved.1 op resolved.2 r2 hop
  split at hc2
  · cases hc2
  · rename_i hne
    obtain ⟨info4, hassign, hts⟩ := except_bind_ok _ _ _ hc2
    obtain ⟨g4, hg4⟩ := assignRenamed_dstGraph _ _ _ _ hassign
    have hspec := tsFold_spec (op.outputs.zip r2.2.2) info4 info' hts
    refine ⟨r2.2.1, r2.2.2, ?_, fun he => hne he, ?_⟩
    · rw [hspec.1, hg4]
      show r2.1.transformedOps ++ [(op, r2.2.1)] = _
      rw [hhm.1, hrm.1]
    · rw [hspec.2, hg4]
      show r2.1.transformedTs ++ _ = _
      rw [hhm.2, hrm.2]

/-- Helper: over the `_copy_ops` loop, recorded copies are never the
originals, earlier hits persist, and every processed node ends up
recorded. -/
theorem copyOps_fold_spec (h : Handlers) (ht : HandlersTame h) (fuel : Nat) :
    ∀ (l : List Node) (a a' : TmpInfo),
      l.foldlM (fun acc op => copyOneOp h fuel acc op) a = .ok a' →
      (∀ pr ∈ a.transformedOps, pr.2 ≠ pr.1) →
      (∀ pr ∈ a'.transformedOps, pr.2 ≠ pr.1) ∧
      (∀ k v, lookupOps a.transformedOps k = some v →
        lookupOps a'.transformedOps k = some v) ∧
      (∀ op ∈ l, (lookupOps a'.transformedOps op).isSome = true) := by
  intro l
  induction l with
  | nil =>
    intro a a' hf hinv
    simp only [List.foldlM_nil, Pure.pure, Except.pure, Except.ok.injEq] at hf
    rw [← hf]
    exact ⟨hinv, fun k v hv => hv, by simp⟩
  | cons op l ih =>
    intro a a' hf hinv
    simp only [List.foldlM_cons] at hf
    obtain ⟨a1, hstep, hrest⟩ := except_bind_ok _ _ _ hf
    obtain ⟨op', outs, hops, hne, hts⟩ := copyOneOp_ok h ht fuel a op a1 hstep
    have hinv1 : ∀ pr ∈ a1.transformedOps, pr.2 ≠ pr.1 := by
      intro pr hpr
      rw [hops] at hpr
      rcases List.mem_append.mp hpr with h1 | h1
      · exact hinv pr h1
      · simp only [List.mem_singleton] at h1
        rw [h1]
        exact hne
    obtain ⟨hinv', hpers, hpres⟩ := ih a1 a' hrest hinv1
    refine ⟨hinv', ?_, ?_⟩
    · intro k v hv
      apply hpers
      rw [hops]
      exact lookupOps_append_some _ _ _ _ hv
    · intro o ho
      rcases List.mem_cons.mp ho with h1 | h1
      · subst h1
        cases hl : lookupOps a.transformedOps o with
        | some v =>
          have h2 := hpers o v (by
            rw [hops]; exact lookupOps_append_some _ _ _ _ hl)
          simp [h2]
        | none =>
          have h2 := hpers o op' (by
            rw [hops]; exact lookupOps_append_new _ _ _ hl)
          simp [h2]
      · exact hpres o h1

/-- Helper: cycle finalization only rewires the destination graph. -/
theorem finalizeCycles_dstGraph (a a' : TmpInfo)
    (h : finalizeCycles a = .ok a') : ∃ g, a' = { a with dstGraph := g } := by
  apply foldlM_dstGraph _ ?_ a.tmpCyclicTs a a' h
  intro a0 trip a1 hstep
  simp only at hstep
  split at hstep
  · cases hstep
  · split at hstep
    · cases hstep
    · split at hstep
      · cases hstep
      · split at hstep
        · cases hstep
        · injection hstep with hstep
          exact ⟨_, hstep.symm⟩

/-- Helper: control-input connection only rewires the destination
graph. -/
theorem connectControlInputs_dstGraph (a a' : TmpInfo)
    (h : connectControlInputs a = .ok a') :
    ∃ g, a' = { a with dstGraph := g } := by
  apply foldlM_dstGraph _ ?_ a.sgvOps a a' h
  intro a0 op a1 hstep
  simp only at hstep
  split at hstep
  · cases hstep
  · obtain ⟨cis, hcis, hpure⟩ := except_bind_ok _ _ _ hstep
    injection hpure with hpure
    exact ⟨_, hpure.symm⟩

/-- Claim C9: with handlers that do not themselves edit the recorded maps
(all defaults qualify), the `_copy_ops` loop body fails with `ValueError`
("In-place transformation not allowed.") exactly when the node-copy
handler returns the node being copied, a successful loop body records the
one node mapping (with a copy distinct from the original) plus the zipped
output-tensor mappings, and a successful `Transformer` invocation leaves
every interior node mapped to a copy distinct from itself. -/
theorem c9_in_place (h : Handlers) (ht : HandlersTame h) :
    (∀ (fuel : Nat) (info : TmpInfo) (op : Node) (r : TmpInfo × List Tensor)
        (r2 : TmpInfo × Node × List Tensor),
      (op.inputs.foldlM (fun (acc : TmpInfo × List Tensor) t => do
          let r ← transformedT h fuel acc.1 t op
          pure (r.1, acc.2 ++ [r.2])) ((info, []) : TmpInfo × List Tensor))
        = .ok r →
      h.opHandler r.1 op r.2 = .ok r2 → r2.2.1 = op →
      copyOneOp h fuel info op = .error .valueError) ∧
    (∀ (fuel : Nat) (info : TmpInfo) (op : Node) (info' : TmpInfo),
      copyOneOp h fuel info op = .ok info' →
      ∃ op' outs,
        info'.transformedOps = info.transformedOps ++ [(op, op')] ∧
        op' ≠ op ∧
        info'.transformedTs = info.transformedTs ++ op.outputs.zip outs) ∧
    (∀ (srcG : Graph) (ops : List Node) (dstG : Graph) (ds ss : String)
        (ru sg : Bool) res,
      transformerCall h srcG ops dstG ds ss ru sg = .ok res →
      ∀ op ∈ ops, ∃ op', lookupOps res.2.1 op = some op' ∧ op' ≠ op) := by
  refine ⟨?_, ?_, ?_⟩
  · intro fuel info op r r2 hfold hop heq
    simp only [copyOneOp, hfold]
    simp only [Bind.bind, Except.bind, hop, heq, if_pos]
  · intro fuel info op info' hc
    exact copyOneOp_ok h ht fuel info op info' hc
  · intro srcG ops dstG ds ss ru sg res hcall op hmem
    simp only [transformerCall] at hcall
    obtain ⟨info1, hcopy, hc1⟩ := except_bind_ok _ _ _ hcall
    obtain ⟨info2, hfin, hc2⟩ := except_bind_ok _ _ _ hc1
    obtain ⟨info3, hconn, hpure⟩ := except_bind_ok _ _ _ hc2
    injection hpure with hpure
    simp only [copyOps] at hcopy
    have hspec := copyOps_fold_spec h ht (srcG.nodes.length + 1)
      (sortById ops) _ info1 hcopy (by intro pr hpr; cases hpr)
    obtain ⟨g2, hg2⟩ := finalizeCycles_dstGraph info1 info2 hfin
    obtain ⟨g3, hg3⟩ := connectControlInputs_dstGraph info2 info3 hconn
    have hres1 : res.2.1 = info1.transformedOps := by
      rw [← hpure, hg3, hg2]
    have hmem2 : op ∈ sortById ops := (mem_sortById ops op).mpr hmem
    have hsome := hspec.2.2 op hmem2
    cases hl : lookupOps info1.transformedOps op with
    | none => rw [hl] at hsome; cases hsome
    | some op' =>
      refine ⟨op', by rw [hres1, hl], ?_⟩
      have hprmem := lookupOps_mem _ _ _ hl
      exact hspec.1 (op, op') hprmem

/-- Witness for C9: the identity handler is rejected on the first node of
the concrete in-place copy, while the default handlers map `A` to a copy
distinct from `A`. -/
theorem c9_in_place_witness :
    copyOneOp idHandlers 1 colocInfo colocA = .error .valueError ∧
    (lookupOps colocCallRes.2.1 colocA).isSome = true ∧
    lookupOps colocCallRes.2.1 colocA ≠ some colocA := by
  have hthm1 := c9_in_place idHandlers idHandlers_tame
  have h1 : copyOneOp idHandlers 1 colocInfo colocA = .error .valueError :=
    hthm1.1 1 colocInfo colocA (colocInfo, [])
      (colocInfo, colocA, colocA.outputs) (by decide) (by decide) (by decide)
  have hthm2 := c9_in_place
    (defaultHandlersWith (replaceTWithReplacementHandler []))
    (defaultHandlersWith_tame [])
  have hcall : transformerCall
      (defaultHandlersWith (replaceTWithReplacementHandler []))
      colocGraph [colocA, colocB] colocGraph "" "" false true
      = .ok colocCallRes := by decide
  obtain ⟨op', hop, hne⟩ := hthm2.2.2 colocGraph [colocA, colocB] colocGraph
    "" "" false true colocCallRes hcall colocA (by simp)
  refine ⟨h1, by rw [hop]; rfl, ?_⟩
  intro hcontra
  rw [hop] at hcontra
  injection hcontra with hcontra
  exact hne hcontra

mutual

/-- Helper: mapping the leaves preserves the tree shape. -/
theorem treeShape_transformTree (f : Tensor → Tensor) :
    (tr : TTree) → treeShape (transformTree f tr) = treeShape tr
  | .leaf _ => rfl
  | .branch ts =>
    congrArg TTree.branch (shapeForest_transformForest f ts)

/-- Helper: mapping the leaves preserves every child's shape. -/
theorem shapeForest_transformForest (f : Tensor → Tensor) :
    (ts : List TTree) → shapeForest (transformForest f ts) = shapeForest ts
  | [] => rfl
  | t :: ts => by
    rw [transformForest, shapeForest, shapeForest,
      treeShape_transformTree f t, shapeForest_transformForest f ts]

end

/-- Claim C6: a `graph_replace` call whose forward walk (from the
replacement keys) and backward walk (from the targets) share no node
fails with `ValueError` ("Targets and replacements are not connected!"),
and the graph is exactly as it was — no node has been created. -/
theorem c6_disconnected (g : Graph) (targets : TTree)
    (repl : List (Tensor × Tensor)) (ds ss : String) (ru : Bool)
    (h1 : (flattenTree targets).isEmpty = false)
    (h2 : (flattenTree targets).all
      (fun t => g.nodeNames.contains t.producer) = true)
    (h3 : (getWalksIntersectionOps g (repl.map Prod.fst)
      (flattenTree targets)).isEmpty = true) :
    graphReplace g targets repl ds ss ru = (g, .error .valueError) := by
  simp only [graphReplace, graphReplaceInfo, h1, h2, h3, Bool.false_eq_true,
    if_false, not_true_eq_false, ite_false, ite_true]

/-- Witness for C6: replacing inside one chain of the two-chain graph
while targeting the other chain fails and leaves the graph untouched. -/
theorem c6_disconnected_witness :
    (flattenTree (.leaf (tsr "d" 0))).isEmpty = false ∧
    (getWalksIntersectionOps discGraph [tsr "a" 0]
      (flattenTree (.leaf (tsr "d" 0)))).isEmpty = true ∧
    graphReplace discGraph (.leaf (tsr "d" 0)) [(tsr "a" 0, tsr "b" 0)]
      "" "" false = (discGraph, .error .valueError) := by
  refine ⟨by decide, by decide, ?_⟩
  exact c6_disconnected discGraph (.leaf (tsr "d" 0)) [(tsr "a" 0, tsr "b" 0)]
    "" "" false (by decide) (by decide) (by decide)

/-- Claim C8: a `graph_replace` call that succeeds returns the target
tree mapped leaf-by-leaf through the copy's tensor mapping, with every
target that was not swept into the copy passed through as the
untransformed original tensor (the identity `missing_fn`), and the result
mirrors the shape of the `target_ts` argument. -/
theorem c8_passthrough (g : Graph) (targets : TTree)
    (repl : List (Tensor × Tensor)) (ds ss : String) (ru : Bool)
    (res : Graph × List (Node × Node) × List (Tensor × Tensor))
    (h : graphReplaceInfo g targets repl ds ss ru = .ok res) :
    graphReplace g targets repl ds ss ru
      = (res.1, .ok (transformTree
          (fun t => (lookupTs res.2.2 t).getD t) targets)) ∧
    (∀ t, lookupTs res.2.2 t = none → (lookupTs res.2.2 t).getD t = t) ∧
    treeShape (transformTree (fun t => (lookupTs res.2.2 t).getD t) targets)
      = treeShape targets := by
  refine ⟨?_, ?_, treeShape_transformTree _ targets⟩
  · simp only [graphReplace, h]
  · intro t ht
    rw [ht]
    rfl

/-- Witness for C8: the concrete run replaces `f:0` by the copied
`f_1:0` and silently passes the untouched `x2:0` through unchanged. -/
theorem c8_passthrough_witness :
    graphReplaceInfo gxGraph gxTargets gxRepl "" "" false = .ok gxRes ∧
    (graphReplace gxGraph gxTargets gxRepl "" "" false).2
      = .ok (.branch [.leaf (tsr "f_1" 0), .leaf (tsr "x2" 0)]) ∧
    lookupTs gxRes.2.2 (tsr "x2" 0) = none := by
  have h : graphReplaceInfo gxGraph gxTargets gxRepl "" "" false = .ok gxRes := by
    decide
  have hthm := c8_passthrough gxGraph gxTargets gxRepl "" "" false gxRes h
  refine ⟨h, ?_, by decide⟩
  rw [hthm.1]
  rfl

end GDE
